import Mathlib

/-!
Verification of the buffer-manager repository (src/storage_manager.c,
src/buffer_mgr.c) against its natural-language specification.

The C sources are shallowly embedded as pure Lean functions:

* The backing page file is a byte list (`SMState.content`); the POSIX
  read/write loops of storage_manager.c either transfer a full page or
  fail, so each such loop consumes one entry of a fault oracle
  (`SMState.faults`).  `lseek` on a valid open descriptor of a regular
  file is modelled as total, and allocation (`malloc`/`calloc`) as
  succeeding; the repository's headers (dberror.h, storage_mgr.h,
  buffer_mgr.h, dt.h) are not part of src/, so the return-code constants
  they define are embedded as a plain enumeration `RC` and the
  empty-frame sentinel `NO_PAGE` as -1 (the conventional value; only its
  negativity is ever used by the code).
* `unsigned long long` sequence counters are Nats reduced modulo 2^64
  (`TICK_MOD`); `ULLONG_MAX` is 2^64 - 1.
* Each frame's `data` buffer is the page it holds; the C code's extra
  leading byte (`fr->data + 1`, a printer convention) is dropped, so
  `fr.data` models the page-sized region the code actually reads and
  writes.
* Out parameters (`SM_FileHandle`, `BM_PageHandle`, page buffers) become
  components of the returned tuples; the client-visible page handle
  carries no information the claims need, so it is omitted from the
  results of `pinPage`.
-/

namespace BufferManager

/-- Page size fixed by storage_manager.c (`#define PAGE_SIZE 4096`). -/
def PAGE_SIZE : Nat := 4096

/-- One more than the largest `unsigned long long` value: the modulus of
the pool's tick counter. -/
def TICK_MOD : Nat := 2 ^ 64

/-- `ULLONG_MAX`, the initial best key of `pickVictim`'s scan. -/
def ULLONG_MAX : Nat := 2 ^ 64 - 1

/-- The empty-frame sentinel `NO_PAGE` from the repository's headers
(not under src/); conventionally -1, and the code only ever relies on it
being rejected by the `pageNum < 0` guard of `pinPage`. -/
def NO_PAGE : Int := -1

/-- The return codes used by the two source files.  dberror.h is not in
src/; the constants it defines are embedded as distinct constructors. -/
inductive RC where
  | RC_OK
  | RC_FILE_NOT_FOUND
  | RC_FILE_HANDLE_NOT_INIT
  | RC_WRITE_FAILED
  | RC_READ_NON_EXISTING_PAGE
deriving DecidableEq

/-- The replacement strategies exercised by the code (`RS_FIFO`,
`RS_LRU` from the missing header; the other enumerators fall into the
`default:` branch of `pickVictim`, which behaves like LRU and is not the
subject of any claim). -/
inductive ReplacementStrategy where
  | RS_FIFO
  | RS_LRU
deriving DecidableEq

/-- `SM_FileHandle`: `totalNumPages` and `curPagePos` as in
storage_mgr.h; `isOpen` models `mgmtInfo != NULL`. -/
structure SM_FileHandle where
  totalNumPages : Int
  curPagePos : Int
  isOpen : Bool
deriving DecidableEq

/-- The state of the backing store: the file's bytes plus the fault
oracle deciding whether each forthcoming read/write loop fails. -/
structure SMState where
  content : List Nat
  faults : List Bool
deriving DecidableEq

/-- Consume the next fault-oracle entry (an exhausted oracle means the
I/O succeeds). -/
def popFault (st : SMState) : Bool × SMState :=
  match st.faults with
  | [] => (false, st)
  | b :: rest => (b, { st with faults := rest })

/-- `updatePageCount`: recompute `totalNumPages` as the file length in
pages, rounding a partial trailing page up, 0 for an empty file. -/
def pagesOf (len : Nat) : Nat := (len + (PAGE_SIZE - 1)) / PAGE_SIZE

/-- The handle after `updatePageCount` on a file with the given bytes. -/
def updatePageCount (content : List Nat) (fh : SM_FileHandle) : SM_FileHandle :=
  { fh with totalNumPages := (pagesOf content.length : Int) }

/-- Byte `i` of the file, 0 past the end (what the zero-filling read
loop of `readBlock` observes). -/
def byteAt (bs : List Nat) (i : Nat) : Nat := (bs[i]?).getD 0

/-- The `n` bytes starting at offset `off`, zero-filled past the end of
the file. -/
def readAt (bs : List Nat) (off n : Nat) : List Nat :=
  (List.range n).map (fun i => byteAt bs (off + i))

/-- Overwrite the bytes at offset `off` with `bytes`, sparsely extending
the file with zeros if `off` is past the current end (POSIX write
semantics at an offset beyond EOF). -/
def writeAt (bs : List Nat) (off : Nat) (bytes : List Nat) : List Nat :=
  (bs.take off ++ List.replicate (off - bs.length) 0) ++ bytes ++ bs.drop (off + bytes.length)

/-- `openPageFile` on the (existing) page file: cursor 0, page count
recomputed from the stream length with a floor of one page. -/
def openPageFile (st : SMState) : SM_FileHandle :=
  let tp := pagesOf st.content.length
  { totalNumPages := ((if tp = 0 then 1 else tp : Nat) : Int)
    curPagePos := 0
    isOpen := true }

/-- `closePageFile`: release the descriptor; fails on a handle that was
never opened or is already closed. -/
def closePageFile (fh : SM_FileHandle) : RC × SM_FileHandle :=
  if fh.isOpen then (RC.RC_OK, { fh with isOpen := false })
  else (RC.RC_FILE_HANDLE_NOT_INIT, fh)

/-- `appendEmptyBlock`: append one zero page at the end of the file and
refresh the page count; the write loop may fail per the oracle. -/
def appendEmptyBlock (fh : SM_FileHandle) (st : SMState) :
    RC × SM_FileHandle × SMState :=
  if fh.isOpen then
    match popFault st with
    | (true, st1) => (RC.RC_WRITE_FAILED, fh, st1)
    | (false, st1) =>
        let content1 := st1.content ++ List.replicate PAGE_SIZE 0
        (RC.RC_OK, updatePageCount content1 fh, { st1 with content := content1 })
  else (RC.RC_FILE_HANDLE_NOT_INIT, fh, st)

/-- The `for` loop of `ensureCapacity`: append `missing` empty blocks,
stopping at the first failure. -/
def appendLoop : Nat → SM_FileHandle → SMState → RC × SM_FileHandle × SMState
  | 0, fh, st => (RC.RC_OK, fh, st)
  | missing + 1, fh, st =>
    match appendEmptyBlock fh st with
    | (rc, fh1, st1) =>
      if rc ≠ RC.RC_OK then (rc, fh1, st1) else appendLoop missing fh1 st1

/-- `ensureCapacity`: refresh the page count, then append zero pages
until the file holds at least `numberOfPages` pages. -/
def ensureCapacity (numberOfPages : Int) (fh : SM_FileHandle) (st : SMState) :
    RC × SM_FileHandle × SMState :=
  if fh.isOpen then
    let fh1 := updatePageCount st.content fh
    if numberOfPages > fh1.totalNumPages then
      appendLoop (numberOfPages - fh1.totalNumPages).toNat fh1 st
    else (RC.RC_OK, fh1, st)
  else (RC.RC_FILE_HANDLE_NOT_INIT, fh, st)

/-- `readBlock`: range-check the index, then read one page, zero-filling
whatever the stream does not supply; on success the cursor moves to the
read page.  A failing read loop leaves the caller's buffer unspecified
in C; the model returns it unchanged (no claim observes it). -/
def readBlock (pageNum : Int) (fh : SM_FileHandle) (memPage : List Nat)
    (st : SMState) : RC × SM_FileHandle × SMState × List Nat :=
  if fh.isOpen then
    if pageNum < 0 ∨ pageNum ≥ fh.totalNumPages then
      (RC.RC_READ_NON_EXISTING_PAGE, fh, st, memPage)
    else
      match popFault st with
      | (true, st1) => (RC.RC_READ_NON_EXISTING_PAGE, fh, st1, memPage)
      | (false, st1) =>
          (RC.RC_OK, { fh with curPagePos := pageNum }, st1,
           readAt st1.content (pageNum.toNat * PAGE_SIZE) PAGE_SIZE)
  else (RC.RC_FILE_HANDLE_NOT_INIT, fh, st, memPage)

/-- `writeBlock`: grow the file first if the index is past the current
end, then write the page, move the cursor and refresh the page count
(with the source's extra `totalNumPages <= pageNum` correction).  A
failing write loop leaves the file unchanged in the model (in C it may
leave a prefix of the page; no claim observes the file after a failed
write). -/
def writeBlock (pageNum : Int) (fh : SM_FileHandle) (memPage : List Nat)
    (st : SMState) : RC × SM_FileHandle × SMState :=
  if fh.isOpen then
    if pageNum < 0 then (RC.RC_WRITE_FAILED, fh, st)
    else
      match
        (if fh.totalNumPages ≤ pageNum then ensureCapacity (pageNum + 1) fh st
         else (RC.RC_OK, fh, st)) with
      | (rc1, fh1, st1) =>
        if rc1 ≠ RC.RC_OK then (rc1, fh1, st1)
        else
          match popFault st1 with
          | (true, st2) => (RC.RC_WRITE_FAILED, fh1, st2)
          | (false, st2) =>
              let content2 := writeAt st2.content (pageNum.toNat * PAGE_SIZE) memPage
              let fh2 := { updatePageCount content2 fh1 with curPagePos := pageNum }
              let fh3 :=
                if fh2.totalNumPages ≤ pageNum then
                  { fh2 with totalNumPages := pageNum + 1 }
                else fh2
              (RC.RC_OK, fh3, { st2 with content := content2 })
  else (RC.RC_FILE_HANDLE_NOT_INIT, fh, st)

/-- A buffer-pool frame (struct `Frame` of buffer_mgr.c); `data` is the
page-sized byte region `fr->data + 1`. -/
structure Frame where
  pageNum : Int
  data : List Nat
  dirty : Bool
  fixCount : Nat
  seq : Nat
  lru : Nat
deriving DecidableEq

/-- Pool bookkeeping (struct `PoolMgmt`); the `capacity` field always
equals the length of the frame array it was allocated with, so the model
uses `frames.length` for it. -/
structure PoolMgmt where
  fh : SM_FileHandle
  frames : List Frame
  numReadIOCount : Nat
  numWriteIOCount : Nat
  tick : Nat
deriving DecidableEq

/-- The linear scan shared by `findFrameIndexByPage` and
`findEmptyFrameIndex`: first index whose frame holds page `p`. -/
def findLoop (p : Int) : List Frame → Nat → Option Nat
  | [], _ => none
  | fr :: rest, i => if fr.pageNum = p then some i else findLoop p rest (i + 1)

/-- `findFrameIndexByPage`: index of the frame holding page `p`. -/
def findFrameIndexByPage (pm : PoolMgmt) (p : Int) : Option Nat :=
  findLoop p pm.frames 0

/-- `findEmptyFrameIndex`: first slot whose page number is `NO_PAGE`. -/
def findEmptyFrameIndex (pm : PoolMgmt) : Option Nat :=
  findLoop NO_PAGE pm.frames 0

/-- The victim key of a frame under a strategy: arrival tick for FIFO,
last-touch tick for LRU. -/
def keyOf (strat : ReplacementStrategy) (fr : Frame) : Nat :=
  match strat with
  | ReplacementStrategy.RS_FIFO => fr.seq
  | ReplacementStrategy.RS_LRU => fr.lru

/-- The first scan of `pickVictim`: the lowest-index occupied frame with
fix count 0. -/
def candLoop : List Frame → Nat → Option Nat
  | [], _ => none
  | fr :: rest, i =>
    if fr.fixCount = 0 ∧ fr.pageNum ≠ NO_PAGE then some i else candLoop rest (i + 1)

/-- The second scan of `pickVictim`: running (victim, bestKey) over all
frames, updating on a strictly smaller key of an occupied unpinned
frame. -/
def victimLoop (strat : ReplacementStrategy) :
    List Frame → Nat → Nat → Nat → Nat × Nat
  | [], _, victim, bestKey => (victim, bestKey)
  | fr :: rest, i, victim, bestKey =>
    if fr.fixCount ≠ 0 ∨ fr.pageNum = NO_PAGE then
      victimLoop strat rest (i + 1) victim bestKey
    else if keyOf strat fr < bestKey then
      victimLoop strat rest (i + 1) i (keyOf strat fr)
    else victimLoop strat rest (i + 1) victim bestKey

/-- `pickVictim`: none when no occupied unpinned frame exists, otherwise
the frame with the smallest strategy key (first scan seeds the running
victim, second scan minimises against `ULLONG_MAX`). -/
def pickVictim (pm : PoolMgmt) (strat : ReplacementStrategy) : Option Nat :=
  match candLoop pm.frames 0 with
  | none => none
  | some firstFree => some (victimLoop strat pm.frames 0 firstFree ULLONG_MAX).1

/-- `flushFrameIfDirty`: write the frame's page back if it is occupied
and dirty; on success clear the dirty flag and count one write.  The
file handle inside the pool is updated even when the write fails, as the
in-place `writeBlock` call does. -/
def flushFrameIfDirty (pm : PoolMgmt) (st : SMState) (i : Nat) :
    RC × PoolMgmt × SMState :=
  match pm.frames[i]? with
  | none => (RC.RC_OK, pm, st)
  | some fr =>
    if fr.pageNum = NO_PAGE then (RC.RC_OK, pm, st)
    else if ¬fr.dirty then (RC.RC_OK, pm, st)
    else
      match writeBlock fr.pageNum pm.fh fr.data st with
      | (rc, fh1, st1) =>
        if rc ≠ RC.RC_OK then (rc, { pm with fh := fh1 }, st1)
        else
          (RC.RC_OK,
           { pm with
              fh := fh1
              frames := pm.frames.set i { fr with dirty := false }
              numWriteIOCount := pm.numWriteIOCount + 1 }, st1)

/-- `touchForLRU`: advance the shared tick and stamp it as frame `i`'s
last-touch time. -/
def touchForLRU (pm : PoolMgmt) (i : Nat) : PoolMgmt :=
  let t := (pm.tick + 1) % TICK_MOD
  match pm.frames[i]? with
  | some fr =>
      { pm with tick := t, frames := pm.frames.set i { fr with lru := t } }
  | none => { pm with tick := t }

/-- `evictIfNeededAndLoad`: flush the occupant of frame `fidx` if dirty,
grow the file when the requested page lies past its end, read the page
into the frame, and only then install the new metadata (page number,
clean, fix count 0, fresh arrival and touch ticks, one read counted). -/
def evictIfNeededAndLoad (pm : PoolMgmt) (st : SMState) (fidx : Nat)
    (pageNum : Int) : RC × PoolMgmt × SMState :=
  match pm.frames[fidx]? with
  | none => (RC.RC_OK, pm, st)
  | some fr0 =>
    match
      (if fr0.pageNum ≠ NO_PAGE then flushFrameIfDirty pm st fidx
       else (RC.RC_OK, pm, st)) with
    | (rc1, pm1, st1) =>
      if rc1 ≠ RC.RC_OK then (rc1, pm1, st1)
      else
        match
          (if pageNum ≥ pm1.fh.totalNumPages then
            ensureCapacity (pageNum + 1) pm1.fh st1
           else (RC.RC_OK, pm1.fh, st1)) with
        | (rc2, fh2, st2) =>
          if rc2 ≠ RC.RC_OK then (rc2, { pm1 with fh := fh2 }, st2)
          else
            match pm1.frames[fidx]? with
            | none => (RC.RC_OK, { pm1 with fh := fh2 }, st2)
            | some fr1 =>
              match readBlock pageNum fh2 fr1.data st2 with
              | (rc3, fh3, st3, buf) =>
                if rc3 ≠ RC.RC_OK then
                  (rc3,
                   { pm1 with
                      fh := fh3
                      frames := pm1.frames.set fidx { fr1 with data := buf } }, st3)
                else
                  let t := (pm1.tick + 1) % TICK_MOD
                  (RC.RC_OK,
                   { pm1 with
                      fh := fh3
                      frames := pm1.frames.set fidx
                        { fr1 with
                            data := buf
                            pageNum := pageNum
                            dirty := false
                            fixCount := 0
                            seq := t
                            lru := t }
                      numReadIOCount := pm1.numReadIOCount + 1
                      tick := t }, st3)

/-- `initBufferPool`: reject a non-positive capacity before touching
anything, otherwise open the page file and allocate that many empty
frames with zeroed counters.  The option result models `bm->mgmtData`
(none = the pool was never initialized); the malloc'd frame buffers'
contents are unspecified in C and zeroed here. -/
def initBufferPool (numPages : Int) (st : SMState) :
    RC × Option PoolMgmt × SMState :=
  if numPages ≤ 0 then (RC.RC_FILE_HANDLE_NOT_INIT, none, st)
  else
    let fh := openPageFile st
    (RC.RC_OK,
     some
       { fh := fh
         frames := List.replicate numPages.toNat
           { pageNum := NO_PAGE, data := List.replicate PAGE_SIZE 0
             dirty := false, fixCount := 0, seq := 0, lru := 0 }
         numReadIOCount := 0
         numWriteIOCount := 0
         tick := 0 }, st)

/-- `pinPage`: on a resident hit bump the fix count and touch the frame;
on a miss pick an empty frame, else a victim (failing when none), then
evict-and-load and pin the loaded frame. -/
def pinPage (strat : ReplacementStrategy) (pm : PoolMgmt) (st : SMState)
    (pageNum : Int) : RC × PoolMgmt × SMState :=
  if pageNum < 0 then (RC.RC_READ_NON_EXISTING_PAGE, pm, st)
  else
    match findFrameIndexByPage pm pageNum with
    | some idx =>
      match pm.frames[idx]? with
      | some fr =>
          (RC.RC_OK,
           touchForLRU
             { pm with frames := pm.frames.set idx { fr with fixCount := fr.fixCount + 1 } }
             idx, st)
      | none => (RC.RC_OK, pm, st)
    | none =>
      match
        (match findEmptyFrameIndex pm with
         | some i => some i
         | none => pickVictim pm strat) with
      | none => (RC.RC_WRITE_FAILED, pm, st)
      | some idx =>
        match evictIfNeededAndLoad pm st idx pageNum with
        | (rc, pm1, st1) =>
          if rc ≠ RC.RC_OK then (rc, pm1, st1)
          else
            match pm1.frames[idx]? with
            | some fr =>
                (RC.RC_OK,
                 touchForLRU
                   { pm1 with frames := pm1.frames.set idx { fr with fixCount := 1 } }
                   idx, st1)
            | none => (RC.RC_OK, pm1, st1)

/-- `unpinPage`: decrement the fix count of the resident frame if it is
positive (a no-op at zero); fail when the page is not resident. -/
def unpinPage (pm : PoolMgmt) (p : Int) : RC × PoolMgmt :=
  match findFrameIndexByPage pm p with
  | none => (RC.RC_READ_NON_EXISTING_PAGE, pm)
  | some idx =>
    match pm.frames[idx]? with
    | none => (RC.RC_OK, pm)
    | some fr =>
      if 0 < fr.fixCount then
        (RC.RC_OK, { pm with frames := pm.frames.set idx { fr with fixCount := fr.fixCount - 1 } })
      else (RC.RC_OK, pm)

/-- `markDirty`: set the dirty flag of the resident frame; fail when the
page is not resident. -/
def markDirty (pm : PoolMgmt) (p : Int) : RC × PoolMgmt :=
  match findFrameIndexByPage pm p with
  | none => (RC.RC_READ_NON_EXISTING_PAGE, pm)
  | some idx =>
    match pm.frames[idx]? with
    | none => (RC.RC_OK, pm)
    | some fr =>
        (RC.RC_OK, { pm with frames := pm.frames.set idx { fr with dirty := true } })

/-- `forcePage`: flush the resident frame for the page if dirty; fail
when the page is not resident. -/
def forcePage (pm : PoolMgmt) (st : SMState) (p : Int) : RC × PoolMgmt × SMState :=
  match findFrameIndexByPage pm p with
  | none => (RC.RC_READ_NON_EXISTING_PAGE, pm, st)
  | some idx => flushFrameIfDirty pm st idx

/-- The condition under which `forceFlushPool`'s loop flushes frame
`fr`. -/
def flushCond (fr : Frame) : Prop :=
  fr.pageNum ≠ NO_PAGE ∧ fr.dirty = true ∧ fr.fixCount = 0

instance : DecidablePred flushCond := fun fr => by
  unfold flushCond; infer_instance

/-- The loop of `forceFlushPool` from slot `i` on, with structural fuel
(the loop bound, the pool capacity, never changes and flushing preserves
the frame count, so fuel `capacity - i` drives every iteration). -/
def forceFlushAux : Nat → Nat → PoolMgmt → SMState → RC × PoolMgmt × SMState
  | 0, _, pm, st => (RC.RC_OK, pm, st)
  | fuel + 1, i, pm, st =>
    match pm.frames[i]? with
    | none => (RC.RC_OK, pm, st)
    | some fr =>
      if flushCond fr then
        match flushFrameIfDirty pm st i with
        | (rc, pm1, st1) =>
          if rc ≠ RC.RC_OK then (rc, pm1, st1)
          else forceFlushAux fuel (i + 1) pm1 st1
      else forceFlushAux fuel (i + 1) pm st

/-- `forceFlushPool`: flush every occupied, dirty, unpinned frame,
stopping at the first flush failure. -/
def forceFlushPool (pm : PoolMgmt) (st : SMState) : RC × PoolMgmt × SMState :=
  forceFlushAux pm.frames.length 0 pm st

/-- An eviction candidate of `pickVictim`: an occupied frame with fix
count 0. -/
def victimCandidate (fr : Frame) : Prop := fr.fixCount = 0 ∧ fr.pageNum ≠ NO_PAGE

instance : DecidablePred victimCandidate := fun fr => by
  unfold victimCandidate; infer_instance

lemma findLoop_some (p : Int) :
    ∀ (l : List Frame) (i j : Nat), findLoop p l i = some j →
      ∃ k fr, j = i + k ∧ l[k]? = some fr ∧ fr.pageNum = p ∧
        ∀ (k' : Nat) (fr' : Frame), k' < k → l[k']? = some fr' → fr'.pageNum ≠ p := by
  intro l
  induction l with
  | nil => intro i j h; simp [findLoop] at h
  | cons fr rest ih =>
    intro i j h
    by_cases hp : fr.pageNum = p
    · simp only [findLoop, if_pos hp, Option.some.injEq] at h
      refine ⟨0, fr, by omega, by simp, hp, ?_⟩
      intro k' fr' hk'
      omega
    · simp only [findLoop, if_neg hp] at h
      obtain ⟨k, fr', hj, hget, hpage, hfirst⟩ := ih (i + 1) j h
      refine ⟨k + 1, fr', by omega, by simpa using hget, hpage, ?_⟩
      intro k' fr'' hk' hget'
      cases k' with
      | zero =>
        simp only [List.getElem?_cons_zero, Option.some.injEq] at hget'
        subst hget'
        exact hp
      | succ k'' =>
        simp only [List.getElem?_cons_succ] at hget'
        exact hfirst k'' fr'' (by omega) hget'

lemma findLoop_none (p : Int) :
    ∀ (l : List Frame) (i : Nat), findLoop p l i = none →
      ∀ fr ∈ l, fr.pageNum ≠ p := by
  intro l
  induction l with
  | nil => intro i _ fr hfr; simp at hfr
  | cons fr0 rest ih =>
    intro i h fr hfr
    by_cases hp : fr0.pageNum = p
    · simp [findLoop, hp] at h
    · simp only [findLoop, if_neg hp] at h
      rcases List.mem_cons.mp hfr with hfr | hfr
      · subst hfr; exact hp
      · exact ih (i + 1) h fr hfr

lemma findLoop_eq_none (p : Int) :
    ∀ (l : List Frame) (i : Nat), (∀ fr ∈ l, fr.pageNum ≠ p) →
      findLoop p l i = none := by
  intro l
  induction l with
  | nil => intro i _; rfl
  | cons fr0 rest ih =>
    intro i h
    have h0 : fr0.pageNum ≠ p := h fr0 (by simp)
    simp only [findLoop, if_neg h0]
    exact ih (i + 1) (fun fr hfr => h fr (List.mem_cons_of_mem _ hfr))

lemma candLoop_some :
    ∀ (l : List Frame) (i j : Nat), candLoop l i = some j →
      ∃ k fr, j = i + k ∧ l[k]? = some fr ∧ victimCandidate fr ∧
        ∀ (k' : Nat) (fr' : Frame), k' < k → l[k']? = some fr' → ¬victimCandidate fr' := by
  intro l
  induction l with
  | nil => intro i j h; simp [candLoop] at h
  | cons fr rest ih =>
    intro i j h
    by_cases hc : fr.fixCount = 0 ∧ fr.pageNum ≠ NO_PAGE
    · simp only [candLoop, if_pos hc, Option.some.injEq] at h
      refine ⟨0, fr, by omega, by simp, hc, ?_⟩
      intro k' fr' hk'
      omega
    · simp only [candLoop, if_neg hc] at h
      obtain ⟨k, fr', hj, hget, hcand, hfirst⟩ := ih (i + 1) j h
      refine ⟨k + 1, fr', by omega, by simpa using hget, hcand, ?_⟩
      intro k' fr'' hk' hget'
      cases k' with
      | zero =>
        simp only [List.getElem?_cons_zero, Option.some.injEq] at hget'
        subst hget'
        exact hc
      | succ k'' =>
        simp only [List.getElem?_cons_succ] at hget'
        exact hfirst k'' fr'' (by omega) hget'

lemma candLoop_none :
    ∀ (l : List Frame) (i : Nat), candLoop l i = none →
      ∀ fr ∈ l, ¬victimCandidate fr := by
  intro l
  induction l with
  | nil => intro i _ fr hfr; simp at hfr
  | cons fr0 rest ih =>
    intro i h fr hfr
    by_cases hc : fr0.fixCount = 0 ∧ fr0.pageNum ≠ NO_PAGE
    · simp [candLoop, hc] at h
    · simp only [candLoop, if_neg hc] at h
      rcases List.mem_cons.mp hfr with hfr | hfr
      · subst hfr; exact hc
      · exact ih (i + 1) h fr hfr

lemma candLoop_eq_none :
    ∀ (l : List Frame) (i : Nat), (∀ fr ∈ l, ¬victimCandidate fr) →
      candLoop l i = none := by
  intro l
  induction l with
  | nil => intro i _; rfl
  | cons fr0 rest ih =>
    intro i h
    have h0 := h fr0 (by simp)
    rw [victimCandidate] at h0
    simp only [candLoop, if_neg h0]
    exact ih (i + 1) (fun fr hfr => h fr (List.mem_cons_of_mem _ hfr))

/-- The loop invariant of `pickVictim`'s minimising scan: the final best
key is below the initial one and below every candidate's key, and the
final victim is either the untouched accumulator or the first candidate
attaining the final best key. -/
lemma victimLoop_spec (strat : ReplacementStrategy) :
    ∀ (l : List Frame) (i v b : Nat),
      (victimLoop strat l i v b).2 ≤ b ∧
      (∀ (k : Nat) (fr : Frame), l[k]? = some fr → victimCandidate fr →
        (victimLoop strat l i v b).2 ≤ keyOf strat fr) ∧
      (((victimLoop strat l i v b).1 = v ∧ (victimLoop strat l i v b).2 = b) ∨
        ∃ k fr, l[k]? = some fr ∧ victimCandidate fr ∧
          (victimLoop strat l i v b).1 = i + k ∧
          (victimLoop strat l i v b).2 = keyOf strat fr ∧
          keyOf strat fr < b ∧
          ∀ (k' : Nat) (fr' : Frame), k' < k → l[k']? = some fr' → victimCandidate fr' →
            keyOf strat fr < keyOf strat fr') := by
  intro l
  induction l with
  | nil =>
    intro i v b
    refine ⟨le_refl b, ?_, Or.inl ⟨rfl, rfl⟩⟩
    intro k fr hget
    simp at hget
  | cons fr0 rest ih =>
    intro i v b
    by_cases hskip : fr0.fixCount ≠ 0 ∨ fr0.pageNum = NO_PAGE
    · have hnc : ¬victimCandidate fr0 := by
        rw [victimCandidate]; tauto
      simp only [victimLoop, if_pos hskip]
      obtain ⟨h1, h2, h3⟩ := ih (i + 1) v b
      refine ⟨h1, ?_, ?_⟩
      · intro k fr hget hcand
        cases k with
        | zero =>
          simp only [List.getElem?_cons_zero, Option.some.injEq] at hget
          subst hget; exact absurd hcand hnc
        | succ k' =>
          simp only [List.getElem?_cons_succ] at hget
          exact h2 k' fr hget hcand
      · rcases h3 with h3 | ⟨k, fr, hget, hcand, hv, hb, hlt, hfirst⟩
        · exact Or.inl h3
        · refine Or.inr ⟨k + 1, fr, by simpa using hget, hcand, by omega, hb, hlt, ?_⟩
          intro k' fr' hk' hget' hcand'
          cases k' with
          | zero =>
            simp only [List.getElem?_cons_zero, Option.some.injEq] at hget'
            subst hget'; exact absurd hcand' hnc
          | succ k'' =>
            simp only [List.getElem?_cons_succ] at hget'
            exact hfirst k'' fr' (by omega) hget' hcand'
    · have hc : victimCandidate fr0 := by
        rw [victimCandidate]; tauto
      by_cases hlt0 : keyOf strat fr0 < b
      · simp only [victimLoop, if_neg hskip, if_pos hlt0]
        obtain ⟨h1, h2, h3⟩ := ih (i + 1) i (keyOf strat fr0)
        refine ⟨le_trans h1 (le_of_lt hlt0), ?_, ?_⟩
        · intro k fr hget hcand
          cases k with
          | zero =>
            simp only [List.getElem?_cons_zero, Option.some.injEq] at hget
            subst hget; exact h1
          | succ k' =>
            simp only [List.getElem?_cons_succ] at hget
            exact h2 k' fr hget hcand
        · rcases h3 with ⟨hv, hb⟩ | ⟨k, fr, hget, hcand, hv, hb, hlt, hfirst⟩
          · refine Or.inr ⟨0, fr0, by simp, hc, by omega, hb, hlt0, ?_⟩
            intro k' fr' hk'
            omega
          · refine Or.inr ⟨k + 1, fr, by simpa using hget, hcand, by omega, hb, lt_trans hlt hlt0, ?_⟩
            intro k' fr' hk' hget' hcand'
            cases k' with
            | zero =>
              simp only [List.getElem?_cons_zero, Option.some.injEq] at hget'
              subst hget'; exact hlt
            | succ k'' =>
              simp only [List.getElem?_cons_succ] at hget'
              exact hfirst k'' fr' (by omega) hget' hcand'
      · simp only [victimLoop, if_neg hskip, if_neg hlt0]
        obtain ⟨h1, h2, h3⟩ := ih (i + 1) v b
        refine ⟨h1, ?_, ?_⟩
        · intro k fr hget hcand
          cases k with
          | zero =>
            simp only [List.getElem?_cons_zero, Option.some.injEq] at hget
            subst hget; exact le_trans h1 (by omega)
          | succ k' =>
            simp only [List.getElem?_cons_succ] at hget
            exact h2 k' fr hget hcand
        · rcases h3 with h3 | ⟨k, fr, hget, hcand, hv, hb, hlt, hfirst⟩
          · exact Or.inl h3
          · refine Or.inr ⟨k + 1, fr, by simpa using hget, hcand, by omega, hb, hlt, ?_⟩
            intro k' fr' hk' hget' hcand'
            cases k' with
            | zero =>
              simp only [List.getElem?_cons_zero, Option.some.injEq] at hget'
              subst hget'
              omega
            | succ k'' =>
              simp only [List.getElem?_cons_succ] at hget'
              exact hfirst k'' fr' (by omega) hget' hcand'

/-- The strategy key of any frame of a pool whose tick fields carry
`unsigned long long` values is at most `ULLONG_MAX`. -/
lemma keyOf_le_of_wf {pm : PoolMgmt} (strat : ReplacementStrategy)
    (hwf : ∀ fr ∈ pm.frames, fr.seq ≤ ULLONG_MAX ∧ fr.lru ≤ ULLONG_MAX) :
    ∀ fr ∈ pm.frames, keyOf strat fr ≤ ULLONG_MAX := by
  intro fr hfr
  cases strat with
  | RS_FIFO => exact (hwf fr hfr).1
  | RS_LRU => exact (hwf fr hfr).2

/-- C1: `pickVictim` never returns a frame with pin count greater than 0;
the frame it returns is an occupied frame with pin count exactly 0 whose
strategy key (arrival sequence number under FIFO, last-touch sequence
number under LRU) is minimal among all such candidates, the lowest frame
index winning on an equal key; it returns none exactly when no occupied
unpinned frame exists.  The well-formedness hypothesis records that the
sequence counters are `unsigned long long` values.  (Within `pinPage`,
`pickVictim` runs only after `findEmptyFrameIndex` failed, so every
unpinned frame it can consider is occupied; an empty slot is never a
victim candidate.) -/
theorem C1_pickVictim_minimal (pm : PoolMgmt) (strat : ReplacementStrategy)
    (hwf : ∀ fr ∈ pm.frames, fr.seq ≤ ULLONG_MAX ∧ fr.lru ≤ ULLONG_MAX) :
    (∀ i : Nat, pickVictim pm strat = some i →
      ∃ fr : Frame, pm.frames[i]? = some fr ∧ fr.fixCount = 0 ∧ fr.pageNum ≠ NO_PAGE ∧
        ∀ (j : Nat) (frj : Frame), pm.frames[j]? = some frj →
          frj.fixCount = 0 → frj.pageNum ≠ NO_PAGE →
          keyOf strat fr < keyOf strat frj ∨
            (keyOf strat fr = keyOf strat frj ∧ i ≤ j)) ∧
    (pickVictim pm strat = none ↔
      ∀ fr ∈ pm.frames, ¬(fr.fixCount = 0 ∧ fr.pageNum ≠ NO_PAGE)) := by
  have hkey := keyOf_le_of_wf strat hwf
  constructor
  · intro i hi
    rw [pickVictim] at hi
    cases hcl : candLoop pm.frames 0 with
    | none => rw [hcl] at hi; exact absurd hi (by simp)
    | some firstFree =>
      rw [hcl] at hi
      have hi' : (victimLoop strat pm.frames 0 firstFree ULLONG_MAX).1 = i :=
        Option.some.inj hi
      obtain ⟨k0, fr0, hff, hget0, hcand0, hfirst0⟩ := candLoop_some pm.frames 0 firstFree hcl
      have hff0 : firstFree = k0 := by omega
      obtain ⟨h1, h2, h3⟩ := victimLoop_spec strat pm.frames 0 firstFree ULLONG_MAX
      rcases h3 with ⟨hv, hb⟩ | ⟨k, fr, hget, hcand, hv, hb, hlt, hfirst⟩
      · -- no key beat ULLONG_MAX: every candidate key equals ULLONG_MAX and
        -- the first candidate (lowest index) was returned
        refine ⟨fr0, ?_, hcand0.1, hcand0.2, ?_⟩
        · rw [← hi', hv, hff0]; exact hget0
        · intro j frj hgetj hfixj hpagej
          have hcandj : victimCandidate frj := ⟨hfixj, hpagej⟩
          have hj1 : ULLONG_MAX ≤ keyOf strat frj := by
            have := h2 j frj hgetj hcandj
            omega
          have hj2 : keyOf strat frj ≤ ULLONG_MAX :=
            hkey frj (List.getElem?_mem hgetj)
          have h01 : ULLONG_MAX ≤ keyOf strat fr0 := by
            have := h2 k0 fr0 hget0 hcand0
            omega
          have h02 : keyOf strat fr0 ≤ ULLONG_MAX :=
            hkey fr0 (List.getElem?_mem hget0)
          refine Or.inr ⟨by omega, ?_⟩
          by_contra hji
          exact hfirst0 j frj (by omega) hgetj hcandj
      · -- the scan found a strictly smaller key: the first index attaining it
        refine ⟨fr, ?_, hcand.1, hcand.2, ?_⟩
        · rw [← hi', hv]; simpa using hget
        · intro j frj hgetj hfixj hpagej
          have hcandj : victimCandidate frj := ⟨hfixj, hpagej⟩
          have hmin : keyOf strat fr ≤ keyOf strat frj := by
            have := h2 j frj hgetj hcandj
            omega
          rcases lt_or_eq_of_le hmin with hmin | hmin
          · exact Or.inl hmin
          · refine Or.inr ⟨hmin, ?_⟩
            by_contra hji
            have : keyOf strat fr < keyOf strat frj :=
              hfirst j frj (by omega) hgetj hcandj
            omega
  · constructor
    · intro hnone
      rw [pickVictim] at hnone
      cases hcl : candLoop pm.frames 0 with
      | none =>
        intro fr hfr hc
        exact candLoop_none pm.frames 0 hcl fr hfr hc
      | some firstFree => rw [hcl] at hnone; exact absurd hnone (by simp)
    · intro hall
      rw [pickVictim, candLoop_eq_none pm.frames 0 hall]

/-- A two-frame pool exercising C1: frame 0 is an unpinned occupied
frame with the smaller arrival tick, frame 1 is pinned. -/
def poolC1 : PoolMgmt :=
  { fh := { totalNumPages := 3, curPagePos := 0, isOpen := true }
    frames :=
      [ { pageNum := 4, data := [], dirty := false, fixCount := 0, seq := 2, lru := 9 }
      , { pageNum := 7, data := [], dirty := true, fixCount := 1, seq := 3, lru := 1 } ]
    numReadIOCount := 0
    numWriteIOCount := 0
    tick := 9 }

/-- Witness for C1: the well-formedness hypothesis holds for `poolC1`
and the theorem applies to it. -/
theorem C1_witness :
    (∀ fr ∈ poolC1.frames, fr.seq ≤ ULLONG_MAX ∧ fr.lru ≤ ULLONG_MAX) ∧
    ((∀ i : Nat, pickVictim poolC1 ReplacementStrategy.RS_FIFO = some i →
      ∃ fr : Frame, poolC1.frames[i]? = some fr ∧ fr.fixCount = 0 ∧ fr.pageNum ≠ NO_PAGE ∧
        ∀ (j : Nat) (frj : Frame), poolC1.frames[j]? = some frj →
          frj.fixCount = 0 → frj.pageNum ≠ NO_PAGE →
          keyOf ReplacementStrategy.RS_FIFO fr < keyOf ReplacementStrategy.RS_FIFO frj ∨
            (keyOf ReplacementStrategy.RS_FIFO fr = keyOf ReplacementStrategy.RS_FIFO frj ∧ i ≤ j)) ∧
    (pickVictim poolC1 ReplacementStrategy.RS_FIFO = none ↔
      ∀ fr ∈ poolC1.frames, ¬(fr.fixCount = 0 ∧ fr.pageNum ≠ NO_PAGE))) :=
  ⟨by decide, C1_pickVictim_minimal poolC1 ReplacementStrategy.RS_FIFO (by decide)⟩

/-- A pool whose single frame is occupied and pinned, with a fault-free
store: a pin of any non-resident page is pool exhaustion. -/
def poolC2 : PoolMgmt :=
  { fh := { totalNumPages := 1, curPagePos := 0, isOpen := true }
    frames :=
      [ { pageNum := 0, data := [], dirty := false, fixCount := 1, seq := 1, lru := 1 } ]
    numReadIOCount := 0
    numWriteIOCount := 0
    tick := 1 }

/-- C2, counterexample to the claim as stated: when the requested page is
not resident, every frame is occupied and every frame is pinned,
`pinPage` returns `RC_WRITE_FAILED` — the very constant `writeBlock`
returns for an underlying write fault (the spec's `WriteFault` kind), as
the second conjunct shows on a store whose write loop faults.  There is
no `PoolExhausted`-specific code in the sources (buffer_mgr.c line 300:
the write-failure code is reused to signal inability to pin), so the pin
does not fail with a `PoolExhausted` error kind distinct from every
other kind. -/
theorem C2_counterexample :
    (pinPage ReplacementStrategy.RS_FIFO poolC2 { content := [], faults := [] } 1).1 =
      RC.RC_WRITE_FAILED ∧
    (writeBlock 0 { totalNumPages := 1, curPagePos := 0, isOpen := true } []
      { content := [], faults := [true] }).1 = RC.RC_WRITE_FAILED := by
  decide

/-- C2, amended: for every pool state in which the requested (valid)
page is not resident, every frame is occupied, and every frame has pin
count greater than 0, `pinPage` fails deterministically with
`RC_WRITE_FAILED`, the code the implementation reuses to signal pool
exhaustion, and the pool and store are left unchanged. -/
theorem C2_pool_exhausted (strat : ReplacementStrategy) (pm : PoolMgmt)
    (st : SMState) (p : Int) (hp : 0 ≤ p)
    (hmiss : findFrameIndexByPage pm p = none)
    (hocc : ∀ fr ∈ pm.frames, fr.pageNum ≠ NO_PAGE)
    (hpin : ∀ fr ∈ pm.frames, 0 < fr.fixCount) :
    pinPage strat pm st p = (RC.RC_WRITE_FAILED, pm, st) := by
  have hempty : findEmptyFrameIndex pm = none :=
    findLoop_eq_none NO_PAGE pm.frames 0 hocc
  have hvict : pickVictim pm strat = none := by
    rw [pickVictim, candLoop_eq_none pm.frames 0 ?_]
    intro fr hfr hc
    rw [victimCandidate] at hc
    have := hpin fr hfr
    omega
  rw [pinPage, if_neg (by omega), hmiss, hempty, hvict]

/-- Witness for the amended C2: all hypotheses hold for `poolC2` and a
pin of page 1, and the theorem applies. -/
theorem C2_witness :
    ((0 : Int) ≤ 1 ∧ findFrameIndexByPage poolC2 1 = none ∧
      (∀ fr ∈ poolC2.frames, fr.pageNum ≠ NO_PAGE) ∧
      (∀ fr ∈ poolC2.frames, 0 < fr.fixCount)) ∧
    pinPage ReplacementStrategy.RS_FIFO poolC2 { content := [], faults := [] } 1 =
      (RC.RC_WRITE_FAILED, poolC2, { content := [], faults := [] }) :=
  ⟨⟨by decide, by decide, by decide, by decide⟩,
    C2_pool_exhausted ReplacementStrategy.RS_FIFO poolC2 { content := [], faults := [] } 1
      (by decide) (by decide) (by decide) (by decide)⟩

/-- C9, counterexample to the claim as stated: `initBufferPool` with
capacity 0 returns `RC_FILE_HANDLE_NOT_INIT` — the very constant
`closePageFile` returns for an operation on a never-opened or
already-closed handle (the spec's `NotInitialized` kind), as the second
conjunct shows.  dberror.h (not in src/) defines no
`InvalidConfiguration`-specific code and the sources reuse the
not-initialized code, so initialization does not fail with an
`InvalidConfiguration` kind distinct from every other kind. -/
theorem C9_counterexample :
    (initBufferPool 0 { content := [], faults := [] }).1 = RC.RC_FILE_HANDLE_NOT_INIT ∧
    (closePageFile { totalNumPages := 1, curPagePos := 0, isOpen := false }).1 =
      RC.RC_FILE_HANDLE_NOT_INIT := by
  decide

/-- C9, amended: for every capacity less than or equal to 0,
`initBufferPool` fails deterministically with `RC_FILE_HANDLE_NOT_INIT`
(the code the implementation reuses for an invalid configuration), the
pool is left uninitialized (`bm->mgmtData` is never set) and the store
is untouched. -/
theorem C9_nonpositive_capacity (numPages : Int) (st : SMState)
    (hn : numPages ≤ 0) :
    initBufferPool numPages st = (RC.RC_FILE_HANDLE_NOT_INIT, none, st) := by
  rw [initBufferPool, if_pos hn]

/-- Witness for the amended C9 at capacity 0. -/
theorem C9_witness :
    ((0 : Int) ≤ 0) ∧
    initBufferPool 0 { content := [], faults := [] } =
      (RC.RC_FILE_HANDLE_NOT_INIT, none, { content := [], faults := [] }) :=
  ⟨by decide, C9_nonpositive_capacity 0 { content := [], faults := [] } (by decide)⟩

/-- C6: `unpinPage` decrements the resident frame's pin count when it is
positive; when it is already 0 it returns success leaving the pool
unchanged (a no-op, not an error); and for a page resident in no frame
it fails with `RC_READ_NON_EXISTING_PAGE`, the code the implementation
uses for the spec's `UnknownPage` kind. -/
theorem C6_unpin_spec (pm : PoolMgmt) (p : Int) :
    (∀ (idx : Nat) (fr : Frame), findFrameIndexByPage pm p = some idx →
      pm.frames[idx]? = some fr →
      (0 < fr.fixCount →
        unpinPage pm p =
          (RC.RC_OK,
           { pm with frames := pm.frames.set idx { fr with fixCount := fr.fixCount - 1 } })) ∧
      (fr.fixCount = 0 → unpinPage pm p = (RC.RC_OK, pm))) ∧
    (findFrameIndexByPage pm p = none →
      unpinPage pm p = (RC.RC_READ_NON_EXISTING_PAGE, pm)) := by
  constructor
  · intro idx fr hfind hget
    constructor
    · intro hfix
      rw [unpinPage, hfind]
      simp only [hget]
      rw [if_pos hfix]
    · intro hfix
      rw [unpinPage, hfind]
      simp only [hget]
      rw [if_neg (by omega)]
  · intro hfind
    rw [unpinPage, hfind]

/-- A pool holding page 7 in frame 0 with pin count 2, for the C6
witness. -/
def poolC6 : PoolMgmt :=
  { fh := { totalNumPages := 8, curPagePos := 0, isOpen := true }
    frames :=
      [ { pageNum := 7, data := [], dirty := false, fixCount := 2, seq := 1, lru := 1 } ]
    numReadIOCount := 0
    numWriteIOCount := 0
    tick := 1 }

/-- Witness for C6: unpinning resident page 7 with pin count 2
decrements it. -/
theorem C6_witness :
    (findFrameIndexByPage poolC6 7 = some 0 ∧
      0 < ({ pageNum := 7, data := [], dirty := false, fixCount := 2, seq := 1, lru := 1 } : Frame).fixCount) ∧
    unpinPage poolC6 7 =
      (RC.RC_OK,
       { poolC6 with
          frames := poolC6.frames.set 0
            { pageNum := 7, data := [], dirty := false, fixCount := 2 - 1, seq := 1, lru := 1 } }) :=
  ⟨⟨by decide, by decide⟩,
    ((C6_unpin_spec poolC6 7).1 0
        { pageNum := 7, data := [], dirty := false, fixCount := 2, seq := 1, lru := 1 }
        (by decide) (by decide)).1 (by decide)⟩

/-- C7: when the requested page is already resident, `pinPage` returns
success having incremented exactly that frame's pin count and stamped it
with the fresh tick as last-touch time, leaving its arrival sequence
number, every other frame, both I/O counters and the backing store
unchanged (no storage I/O is performed). -/
theorem C7_pin_hit (strat : ReplacementStrategy) (pm : PoolMgmt) (st : SMState)
    (p : Int) (idx : Nat) (fr : Frame) (hp : 0 ≤ p)
    (hfind : findFrameIndexByPage pm p = some idx)
    (hget : pm.frames[idx]? = some fr) :
    pinPage strat pm st p =
      (RC.RC_OK,
       { pm with
          frames := pm.frames.set idx
            { fr with fixCount := fr.fixCount + 1, lru := (pm.tick + 1) % TICK_MOD }
          tick := (pm.tick + 1) % TICK_MOD },
       st) ∧
    (pinPage strat pm st p).2.1.numReadIOCount = pm.numReadIOCount ∧
    (pinPage strat pm st p).2.1.numWriteIOCount = pm.numWriteIOCount ∧
    (pinPage strat pm st p).2.2 = st ∧
    ((pinPage strat pm st p).2.1.frames[idx]?).map Frame.seq = some fr.seq ∧
    ∀ j : Nat, j ≠ idx → (pinPage strat pm st p).2.1.frames[j]? = pm.frames[j]? := by
  have hlen : idx < pm.frames.length := by
    rcases List.getElem?_eq_some_iff.mp hget with ⟨h, _⟩
    exact h
  have hmain :
      pinPage strat pm st p =
        (RC.RC_OK,
         { pm with
            frames := pm.frames.set idx
              { fr with fixCount := fr.fixCount + 1, lru := (pm.tick + 1) % TICK_MOD }
            tick := (pm.tick + 1) % TICK_MOD },
         st) := by
    rw [pinPage, if_neg (by omega), hfind]
    simp only [hget]
    rw [touchForLRU]
    simp only [List.getElem?_set_self hlen, List.set_set]
  refine ⟨hmain, ?_, ?_, ?_, ?_, ?_⟩
  · rw [hmain]
  · rw [hmain]
  · rw [hmain]
  · rw [hmain]
    simp [List.getElem?_set_self hlen]
  · intro j hj
    rw [hmain]
    exact List.getElem?_set_ne (by omega)

/-- Witness for C7: re-pinning resident page 7 of `poolC6`. -/
theorem C7_witness :
    ((0 : Int) ≤ 7 ∧ findFrameIndexByPage poolC6 7 = some 0) ∧
    pinPage ReplacementStrategy.RS_FIFO poolC6 { content := [], faults := [] } 7 =
      (RC.RC_OK,
       { poolC6 with
          frames := poolC6.frames.set 0
            { pageNum := 7, data := [], dirty := false, fixCount := 2 + 1, seq := 1
              lru := (poolC6.tick + 1) % TICK_MOD }
          tick := (poolC6.tick + 1) % TICK_MOD },
       { content := [], faults := [] }) :=
  ⟨⟨by decide, by decide⟩,
    (C7_pin_hit ReplacementStrategy.RS_FIFO poolC6 { content := [], faults := [] } 7 0
        { pageNum := 7, data := [], dirty := false, fixCount := 2, seq := 1, lru := 1 }
        (by decide) (by decide) (by decide)).1⟩

/-- Overwriting a slot with an element carrying the same image under `f`
leaves the mapped list unchanged. -/
lemma map_set_same {α β : Type} (f : α → β) (l : List α) (i : Nat) (x y : α)
    (hget : l[i]? = some x) (hf : f y = f x) : (l.set i y).map f = l.map f := by
  apply List.ext_getElem?
  intro j
  by_cases hij : i = j
  · subst hij
    have hlen : i < l.length := (List.getElem?_eq_some_iff.mp hget).1
    rw [List.getElem?_map, List.getElem?_map, List.getElem?_set_self hlen, hget]
    simp [hf]
  · rw [List.getElem?_map, List.getElem?_map, List.getElem?_set_ne hij]

/-- What `flushFrameIfDirty` can do to the pool: it never changes the
tick, the read counter or any frame's page number, and either it leaves
the frames and the write counter alone or it succeeds on an occupied
dirty frame, clearing exactly its dirty flag and counting one write. -/
lemma flushFrameIfDirty_spec (pm : PoolMgmt) (st : SMState) (i : Nat) :
    ∀ (rc : RC) (pm' : PoolMgmt) (st' : SMState),
      flushFrameIfDirty pm st i = (rc, pm', st') →
      pm'.tick = pm.tick ∧
      pm'.numReadIOCount = pm.numReadIOCount ∧
      pm'.frames.map Frame.pageNum = pm.frames.map Frame.pageNum ∧
      (pm'.frames = pm.frames ∧ pm'.numWriteIOCount = pm.numWriteIOCount ∨
        ∃ fr : Frame, pm.frames[i]? = some fr ∧ fr.pageNum ≠ NO_PAGE ∧ fr.dirty = true ∧
          rc = RC.RC_OK ∧
          pm'.frames = pm.frames.set i { fr with dirty := false } ∧
          pm'.numWriteIOCount = pm.numWriteIOCount + 1) := by
  intro rc pm' st' heq
  cases hget : pm.frames[i]? with
  | none =>
    rw [flushFrameIfDirty, hget] at heq
    cases heq
    exact ⟨rfl, rfl, rfl, Or.inl ⟨rfl, rfl⟩⟩
  | some fr =>
    by_cases h1 : fr.pageNum = NO_PAGE
    · rw [flushFrameIfDirty] at heq
      simp only [hget, if_pos h1] at heq
      cases heq
      exact ⟨rfl, rfl, rfl, Or.inl ⟨rfl, rfl⟩⟩
    · by_cases h2 : fr.dirty = true
      · rcases hwb : writeBlock fr.pageNum pm.fh fr.data st with ⟨rcw, fh1, st1⟩
        rw [flushFrameIfDirty] at heq
        simp only [hget, if_neg h1, h2, not_true, if_false, hwb, ite_false] at heq
        by_cases h3 : rcw = RC.RC_OK
        · subst h3
          rw [if_neg (by simp)] at heq
          cases heq
          refine ⟨rfl, rfl, map_set_same Frame.pageNum pm.frames i fr _ hget rfl, Or.inr ?_⟩
          exact ⟨fr, rfl, h1, h2, rfl, rfl, rfl⟩
        · rw [if_pos h3] at heq
          cases heq
          exact ⟨rfl, rfl, rfl, Or.inl ⟨rfl, rfl⟩⟩
      · rw [flushFrameIfDirty] at heq
        simp only [hget, if_neg h1, h2, not_false_eq_true, if_true, Bool.false_eq_true,
          if_pos] at heq
        cases heq
        exact ⟨rfl, rfl, rfl, Or.inl ⟨rfl, rfl⟩⟩

/-- What `evictIfNeededAndLoad` can do to the frames: on failure every
frame's page number is unchanged; on success either the frames' page
numbers are all unchanged or exactly the chosen slot was overwritten
with a frame holding the requested page. -/
lemma evictIfNeededAndLoad_spec (pm : PoolMgmt) (st : SMState) (fidx : Nat)
    (p : Int) :
    ∀ (rc : RC) (pm' : PoolMgmt) (st' : SMState),
      evictIfNeededAndLoad pm st fidx p = (rc, pm', st') →
      (rc ≠ RC.RC_OK →
        pm'.frames.map Frame.pageNum = pm.frames.map Frame.pageNum) ∧
      (rc = RC.RC_OK →
        pm'.frames.map Frame.pageNum = pm.frames.map Frame.pageNum ∨
          ∃ (frs : List Frame) (fr1 : Frame),
            frs.map Frame.pageNum = pm.frames.map Frame.pageNum ∧
            pm'.frames = frs.set fidx fr1 ∧ fr1.pageNum = p) := by
  intro rc pm' st' heq
  cases hget : pm.frames[fidx]? with
  | none =>
    rw [evictIfNeededAndLoad, hget] at heq
    cases heq
    exact ⟨fun h => absurd rfl h, fun _ => Or.inl rfl⟩
  | some fr0 =>
    rcases hs1 : (if fr0.pageNum ≠ NO_PAGE then flushFrameIfDirty pm st fidx
      else (RC.RC_OK, pm, st)) with ⟨rc1, pm1, st1⟩
    have hmap1 : pm1.frames.map Frame.pageNum = pm.frames.map Frame.pageNum := by
      by_cases hocc : fr0.pageNum ≠ NO_PAGE
      · rw [if_pos hocc] at hs1
        exact (flushFrameIfDirty_spec pm st fidx rc1 pm1 st1 hs1).2.2.1
      · rw [if_neg hocc] at hs1
        cases hs1
        rfl
    rw [evictIfNeededAndLoad] at heq
    simp only [hget, hs1] at heq
    by_cases hrc1 : rc1 = RC.RC_OK
    · subst hrc1
      rw [if_neg (by simp)] at heq
      rcases hs2 : (if p ≥ pm1.fh.totalNumPages then ensureCapacity (p + 1) pm1.fh st1
        else (RC.RC_OK, pm1.fh, st1)) with ⟨rc2, fh2, st2⟩
      simp only [hs2] at heq
      by_cases hrc2 : rc2 = RC.RC_OK
      · subst hrc2
        rw [if_neg (by simp)] at heq
        cases hget1 : pm1.frames[fidx]? with
        | none =>
          simp only [hget1] at heq
          cases heq
          exact ⟨fun h => absurd rfl h, fun _ => Or.inl hmap1⟩
        | some fr1 =>
          rcases hrb : readBlock p fh2 fr1.data st2 with ⟨rc3, fh3, st3, buf⟩
          simp only [hget1, hrb] at heq
          by_cases hrc3 : rc3 = RC.RC_OK
          · subst hrc3
            rw [if_neg (by simp)] at heq
            cases heq
            refine ⟨fun h => absurd rfl h, fun _ => Or.inr ?_⟩
            exact ⟨pm1.frames, _, hmap1, rfl, rfl⟩
          · rw [if_pos hrc3] at heq
            cases heq
            refine ⟨fun _ => ?_, fun h => absurd h hrc3⟩
            calc (pm1.frames.set fidx { fr1 with data := buf }).map Frame.pageNum
                = pm1.frames.map Frame.pageNum :=
                  map_set_same Frame.pageNum pm1.frames fidx fr1 _ hget1 rfl
              _ = pm.frames.map Frame.pageNum := hmap1
      · rw [if_pos hrc2] at heq
        cases heq
        exact ⟨fun _ => hmap1, fun h => absurd h hrc2⟩
    · rw [if_pos hrc1] at heq
      cases heq
      exact ⟨fun _ => hmap1, fun h => absurd h hrc1⟩

/-- C3: when a pin misses, a frame has been selected (an empty one, else
a victim), and the flush of the dirty occupant or the subsequent load of
the requested page fails, `pinPage` returns exactly the failing step's
error and state, and no frame's resident page number has changed — in
particular the selected frame is not marked as holding the requested
page. -/
theorem C3_partial_failure_preserves_metadata (strat : ReplacementStrategy)
    (pm : PoolMgmt) (st : SMState) (p : Int) (idx : Nat) (hp : 0 ≤ p)
    (hmiss : findFrameIndexByPage pm p = none)
    (hsel : (match findEmptyFrameIndex pm with
             | some i => some i
             | none => pickVictim pm strat) = some idx)
    (hfail : (evictIfNeededAndLoad pm st idx p).1 ≠ RC.RC_OK) :
    pinPage strat pm st p = evictIfNeededAndLoad pm st idx p ∧
    (evictIfNeededAndLoad pm st idx p).2.1.frames.map Frame.pageNum =
      pm.frames.map Frame.pageNum := by
  rcases hev : evictIfNeededAndLoad pm st idx p with ⟨rc, pm1, st1⟩
  have hrc : rc ≠ RC.RC_OK := by
    rw [hev] at hfail
    exact hfail
  constructor
  · rw [pinPage, if_neg (by omega), hmiss]
    simp only [hsel, hev]
    rw [if_pos hrc]
  · exact (evictIfNeededAndLoad_spec pm st idx p rc pm1 st1 hev).1 hrc

/-- A one-frame pool whose occupant is dirty and unpinned, over a store
whose next write faults: the flush step of the eviction fails. -/
def poolC3 : PoolMgmt :=
  { fh := { totalNumPages := 1, curPagePos := 0, isOpen := true }
    frames :=
      [ { pageNum := 0, data := [3], dirty := true, fixCount := 0, seq := 1, lru := 1 } ]
    numReadIOCount := 0
    numWriteIOCount := 0
    tick := 1 }

/-- Witness for C3: pinning non-resident page 1 of `poolC3` over the
faulting store makes the flush fail; the hypotheses hold and the theorem
applies. -/
theorem C3_witness :
    ((0 : Int) ≤ 1 ∧ findFrameIndexByPage poolC3 1 = none ∧
      (match findEmptyFrameIndex poolC3 with
       | some i => some i
       | none => pickVictim poolC3 ReplacementStrategy.RS_FIFO) = some 0 ∧
      (evictIfNeededAndLoad poolC3 { content := [3], faults := [true] } 0 1).1 ≠ RC.RC_OK) ∧
    (pinPage ReplacementStrategy.RS_FIFO poolC3 { content := [3], faults := [true] } 1 =
        evictIfNeededAndLoad poolC3 { content := [3], faults := [true] } 0 1 ∧
      (evictIfNeededAndLoad poolC3 { content := [3], faults := [true] } 0 1).2.1.frames.map
          Frame.pageNum = poolC3.frames.map Frame.pageNum) :=
  ⟨⟨by decide, by decide, by decide, by decide⟩,
    C3_partial_failure_preserves_metadata ReplacementStrategy.RS_FIFO poolC3
      { content := [3], faults := [true] } 1 0 (by decide) (by decide) (by decide) (by decide)⟩

lemma readAt_length (bs : List Nat) (off n : Nat) : (readAt bs off n).length = n := by
  simp [readAt]

lemma readAt_getElem? (bs : List Nat) (off n i : Nat) (hi : i < n) :
    (readAt bs off n)[i]? = some (byteAt bs (off + i)) := by
  rw [readAt, List.getElem?_map, List.getElem?_range hi]
  rfl

lemma byteAt_of_le_length (bs : List Nat) (i : Nat) (h : bs.length ≤ i) :
    byteAt bs i = 0 := by
  rw [byteAt, List.getElem?_eq_none h]
  rfl

lemma byteAt_of_lt_length (bs : List Nat) (i : Nat) (h : i < bs.length) :
    byteAt bs i = bs[i] := by
  rw [byteAt, List.getElem?_eq_getElem h]
  rfl

set_option maxRecDepth 10000 in
/-- C8: for an open handle over a fault-free stream, `readBlock` fails
with `RC_READ_NON_EXISTING_PAGE` (the code the implementation uses for
the spec's `InvalidPage` kind) exactly when the index is outside
`0 ≤ pageNum < totalNumPages`; in range it succeeds, moves the cursor to
the read page, returns one page of bytes that agree with the stream, and
zero-fills every position the stream does not supply instead of
failing. -/
theorem C8_readBlock_spec (fh : SM_FileHandle) (st : SMState) (p : Int)
    (buf : List Nat) (hopen : fh.isOpen = true) (hf : st.faults = []) :
    ((readBlock p fh buf st).1 = RC.RC_READ_NON_EXISTING_PAGE ↔
      ¬(0 ≤ p ∧ p < fh.totalNumPages)) ∧
    (0 ≤ p → p < fh.totalNumPages →
      (readBlock p fh buf st).1 = RC.RC_OK ∧
      (readBlock p fh buf st).2.1.curPagePos = p ∧
      (readBlock p fh buf st).2.2.2.length = PAGE_SIZE ∧
      (∀ i : Nat, i < PAGE_SIZE → p.toNat * PAGE_SIZE + i < st.content.length →
        (readBlock p fh buf st).2.2.2[i]? =
          st.content[p.toNat * PAGE_SIZE + i]?) ∧
      (∀ i : Nat, i < PAGE_SIZE → st.content.length ≤ p.toNat * PAGE_SIZE + i →
        (readBlock p fh buf st).2.2.2[i]? = some 0)) := by
  have hpop : popFault st = (false, st) := by
    rw [popFault, hf]
  by_cases hrange : p < 0 ∨ p ≥ fh.totalNumPages
  · have hred : readBlock p fh buf st = (RC.RC_READ_NON_EXISTING_PAGE, fh, st, buf) := by
      rw [readBlock, if_pos hopen, if_pos hrange]
    constructor
    · rw [hred]
      refine iff_of_true rfl ?_
      rcases hrange with h | h
      · omega
      · omega
    · intro h0 hlt
      rcases hrange with h | h
      · omega
      · omega
  · have hred : readBlock p fh buf st =
        (RC.RC_OK, { fh with curPagePos := p }, st,
         readAt st.content (p.toNat * PAGE_SIZE) PAGE_SIZE) := by
      rw [readBlock, if_pos hopen, if_neg hrange]
      rw [hpop]
    constructor
    · rw [hred]
      refine iff_of_false (by simp) ?_
      push_neg at hrange ⊢
      omega
    · intro h0 hlt
      rw [hred]
      refine ⟨rfl, rfl, readAt_length _ _ _, ?_, ?_⟩
      · intro i hi hlen
        rw [readAt_getElem? _ _ _ _ hi, byteAt_of_lt_length _ _ hlen,
          List.getElem?_eq_getElem hlen]
      · intro i hi hlen
        rw [readAt_getElem? _ _ _ _ hi, byteAt_of_le_length _ _ hlen]

set_option maxRecDepth 10000 in
/-- Witness for C8: reading page 1 of a two-page handle over a one-byte
stream succeeds with zero-fill. -/
theorem C8_witness :
    (({ totalNumPages := 2, curPagePos := 0, isOpen := true } : SM_FileHandle).isOpen = true ∧
      ({ content := [5], faults := [] } : SMState).faults = []) ∧
    (((readBlock 1 { totalNumPages := 2, curPagePos := 0, isOpen := true } []
          { content := [5], faults := [] }).1 = RC.RC_READ_NON_EXISTING_PAGE ↔
        ¬((0 : Int) ≤ 1 ∧ (1 : Int) < ({ totalNumPages := 2, curPagePos := 0, isOpen := true } : SM_FileHandle).totalNumPages)) ∧
      ((0 : Int) ≤ 1 → (1 : Int) < ({ totalNumPages := 2, curPagePos := 0, isOpen := true } : SM_FileHandle).totalNumPages →
        (readBlock 1 { totalNumPages := 2, curPagePos := 0, isOpen := true } []
            { content := [5], faults := [] }).1 = RC.RC_OK ∧
        (readBlock 1 { totalNumPages := 2, curPagePos := 0, isOpen := true } []
            { content := [5], faults := [] }).2.1.curPagePos = 1 ∧
        (readBlock 1 { totalNumPages := 2, curPagePos := 0, isOpen := true } []
            { content := [5], faults := [] }).2.2.2.length = PAGE_SIZE ∧
        (∀ i : Nat, i < PAGE_SIZE → (1 : Int).toNat * PAGE_SIZE + i < ([5] : List Nat).length →
          (readBlock 1 { totalNumPages := 2, curPagePos := 0, isOpen := true } []
              { content := [5], faults := [] }).2.2.2[i]? =
            ([5] : List Nat)[(1 : Int).toNat * PAGE_SIZE + i]?) ∧
        (∀ i : Nat, i < PAGE_SIZE → ([5] : List Nat).length ≤ (1 : Int).toNat * PAGE_SIZE + i →
          (readBlock 1 { totalNumPages := 2, curPagePos := 0, isOpen := true } []
              { content := [5], faults := [] }).2.2.2[i]? = some 0))) :=
  ⟨⟨rfl, rfl⟩,
    C8_readBlock_spec { totalNumPages := 2, curPagePos := 0, isOpen := true }
      { content := [5], faults := [] } 1 [] rfl rfl⟩

lemma appendLoop_noFault :
    ∀ (missing : Nat) (fh : SM_FileHandle) (st : SMState),
      fh.isOpen = true → st.faults = [] →
      (appendLoop missing fh st).1 = RC.RC_OK ∧
      (appendLoop missing fh st).2.1.isOpen = true ∧
      (appendLoop missing fh st).2.2.faults = [] := by
  intro missing
  induction missing with
  | zero => intro fh st hopen hf; exact ⟨rfl, hopen, hf⟩
  | succ m ih =>
    intro fh st hopen hf
    have hpop : popFault st = (false, st) := by rw [popFault, hf]
    have happ : appendEmptyBlock fh st =
        (RC.RC_OK, updatePageCount (st.content ++ List.replicate PAGE_SIZE 0) fh,
         { st with content := st.content ++ List.replicate PAGE_SIZE 0 }) := by
      rw [appendEmptyBlock, if_pos hopen, hpop]
    simp only [appendLoop, happ]
    rw [if_neg (by simp)]
    exact ih _ _ hopen hf

lemma ensureCapacity_noFault (n : Int) (fh : SM_FileHandle) (st : SMState)
    (hopen : fh.isOpen = true) (hf : st.faults = []) :
    (ensureCapacity n fh st).1 = RC.RC_OK ∧
    (ensureCapacity n fh st).2.1.isOpen = true ∧
    (ensureCapacity n fh st).2.2.faults = [] := by
  simp only [ensureCapacity, if_pos hopen]
  by_cases hgrow : n > (updatePageCount st.content fh).totalNumPages
  · rw [if_pos hgrow]
    exact appendLoop_noFault _ _ _ hopen hf
  · rw [if_neg hgrow]
    exact ⟨rfl, hopen, hf⟩

/-- On a fault-free store, `writeBlock` of a valid index through an open
handle succeeds: the handle stays open, no fault is pending, the cursor
moves to the written page, the page count exceeds the index, and the
file's bytes are those of some stream with the page spliced in at the
page's offset. -/
lemma writeBlock_noFault (k : Int) (fh : SM_FileHandle) (B : List Nat) (st : SMState)
    (hopen : fh.isOpen = true) (hk : 0 ≤ k) (hf : st.faults = []) :
    ∀ (rc : RC) (fh1 : SM_FileHandle) (st1 : SMState),
      writeBlock k fh B st = (rc, fh1, st1) →
      rc = RC.RC_OK ∧ fh1.isOpen = true ∧ st1.faults = [] ∧
      fh1.curPagePos = k ∧ k < fh1.totalNumPages ∧
      ∃ bs2 : List Nat, st1.content = writeAt bs2 (k.toNat * PAGE_SIZE) B := by
  intro rc fh1 st1 heq
  rw [writeBlock, if_pos hopen, if_neg (by omega)] at heq
  rcases hs1 : (if fh.totalNumPages ≤ k then ensureCapacity (k + 1) fh st
    else (RC.RC_OK, fh, st)) with ⟨rc1, fhA, stA⟩
  have hA : rc1 = RC.RC_OK ∧ fhA.isOpen = true ∧ stA.faults = [] := by
    by_cases hg : fh.totalNumPages ≤ k
    · rw [if_pos hg] at hs1
      have hspec := ensureCapacity_noFault (k + 1) fh st hopen hf
      rw [hs1] at hspec
      exact hspec
    · rw [if_neg hg] at hs1
      cases hs1
      exact ⟨rfl, hopen, hf⟩
  obtain ⟨hrc1, hAopen, hAf⟩ := hA
  subst hrc1
  have hpopA : popFault stA = (false, stA) := by rw [popFault, hAf]
  simp only [hs1] at heq
  rw [if_neg (by simp)] at heq
  simp only [hpopA] at heq
  cases heq
  refine ⟨rfl, ?_, hAf, ?_, ?_, ⟨stA.content, rfl⟩⟩
  · by_cases hc : (updatePageCount (writeAt stA.content (k.toNat * PAGE_SIZE) B)
        fhA).totalNumPages ≤ k
    · rw [if_pos hc]
      exact hAopen
    · rw [if_neg hc]
      exact hAopen
  · by_cases hc : (updatePageCount (writeAt stA.content (k.toNat * PAGE_SIZE) B)
        fhA).totalNumPages ≤ k
    · rw [if_pos hc]
    · rw [if_neg hc]
  · by_cases hc : (updatePageCount (writeAt stA.content (k.toNat * PAGE_SIZE) B)
        fhA).totalNumPages ≤ k
    · rw [if_pos hc]
      show k < k + 1
      omega
    · rw [if_neg hc]
      exact not_le.mp hc

lemma writeAt_prefix_length (bs : List Nat) (off : Nat) :
    (bs.take off ++ List.replicate (off - bs.length) 0).length = off := by
  simp
  omega

lemma writeAt_length (bs B : List Nat) (off : Nat) :
    (writeAt bs off B).length = max (off + B.length) bs.length := by
  rw [writeAt, List.append_assoc]
  rw [List.length_append, writeAt_prefix_length, List.length_append, List.length_drop]
  omega

lemma writeAt_getElem_mid (bs B : List Nat) (off i : Nat) (hi : i < B.length) :
    (writeAt bs off B)[off + i]? = B[i]? := by
  have hP := writeAt_prefix_length bs off
  rw [writeAt, List.append_assoc, List.getElem?_append_right (by rw [hP]; omega), hP,
    Nat.add_sub_cancel_left]
  exact List.getElem?_append_left hi

/-- Reading back the page just spliced in by `writeAt` recovers exactly
the written bytes. -/
lemma readAt_writeAt (bs B : List Nat) (off : Nat) :
    readAt (writeAt bs off B) off B.length = B := by
  apply List.ext_getElem?
  intro n
  by_cases hn : n < B.length
  · rw [readAt_getElem? _ _ _ _ hn, byteAt, writeAt_getElem_mid bs B off n hn,
      List.getElem?_eq_getElem hn]
    rfl
  · have h1 : (readAt (writeAt bs off B) off B.length).length ≤ n := by
      rw [readAt_length]
      omega
    rw [List.getElem?_eq_none h1, List.getElem?_eq_none (by omega)]

lemma lt_pagesOf (k len : Nat) (h : (k + 1) * PAGE_SIZE ≤ len) : k < pagesOf len := by
  rw [pagesOf]
  rw [PAGE_SIZE] at *
  omega

set_option maxRecDepth 10000 in
/-- C4: a successful `writeBlock` of page `k` through an open fault-free
handle followed by `readBlock` of page `k` returns exactly the written
bytes, and the same holds when the handle is closed and the file
reopened between the write and the read. -/
theorem C4_write_read_roundtrip (fh : SM_FileHandle) (st : SMState) (k : Int)
    (B buf1 buf2 : List Nat) (hopen : fh.isOpen = true) (hk : 0 ≤ k)
    (hB : B.length = PAGE_SIZE) (hf : st.faults = []) :
    (writeBlock k fh B st).1 = RC.RC_OK ∧
    (readBlock k (writeBlock k fh B st).2.1 buf1 (writeBlock k fh B st).2.2).1 = RC.RC_OK ∧
    (readBlock k (writeBlock k fh B st).2.1 buf1 (writeBlock k fh B st).2.2).2.2.2 = B ∧
    (closePageFile (writeBlock k fh B st).2.1).1 = RC.RC_OK ∧
    (readBlock k (openPageFile (writeBlock k fh B st).2.2) buf2
      (writeBlock k fh B st).2.2).1 = RC.RC_OK ∧
    (readBlock k (openPageFile (writeBlock k fh B st).2.2) buf2
      (writeBlock k fh B st).2.2).2.2.2 = B := by
  rcases heq : writeBlock k fh B st with ⟨rcW, fh1, st1⟩
  obtain ⟨hrc, h1open, h1f, hcur, hlt, bs2, hcont⟩ :=
    writeBlock_noFault k fh B st hopen hk hf rcW fh1 st1 heq
  subst hrc
  have hpop1 : popFault st1 = (false, st1) := by rw [popFault, h1f]
  have hbytes : readAt st1.content (k.toNat * PAGE_SIZE) PAGE_SIZE = B := by
    rw [hcont]
    have h := readAt_writeAt bs2 B (k.toNat * PAGE_SIZE)
    rw [hB] at h
    exact h
  have hread1 : readBlock k fh1 buf1 st1 =
      (RC.RC_OK, { fh1 with curPagePos := k }, st1,
       readAt st1.content (k.toNat * PAGE_SIZE) PAGE_SIZE) := by
    rw [readBlock, if_pos h1open, if_neg (by push_neg; exact ⟨hk, hlt⟩), hpop1]
  have hlen1 : (k.toNat + 1) * PAGE_SIZE ≤ st1.content.length := by
    rw [hcont, writeAt_length, hB, Nat.succ_mul]
    exact Nat.le_max_left _ _
  have htp : k < (openPageFile st1).totalNumPages := by
    have h1 : k.toNat < pagesOf st1.content.length := lt_pagesOf _ _ hlen1
    by_cases h0 : pagesOf st1.content.length = 0
    · omega
    · simp only [openPageFile, if_neg h0]
      omega
  have hread2 : readBlock k (openPageFile st1) buf2 st1 =
      (RC.RC_OK, { openPageFile st1 with curPagePos := k }, st1,
       readAt st1.content (k.toNat * PAGE_SIZE) PAGE_SIZE) := by
    rw [readBlock, if_pos (by simp [openPageFile]),
      if_neg (by push_neg; exact ⟨hk, htp⟩), hpop1]
  refine ⟨rfl, ?_, ?_, ?_, ?_, ?_⟩
  · rw [hread1]
  · rw [hread1]
    exact hbytes
  · rw [closePageFile, if_pos h1open]
  · rw [hread2]
  · rw [hread2]
    exact hbytes

/-- The write of the C4 witness: one page of 7s as page 0 of a fresh
empty file. -/
def fhC4 : SM_FileHandle := { totalNumPages := 1, curPagePos := 0, isOpen := true }

/-- The page of bytes written by the C4 witness. -/
def pageC4 : List Nat := List.replicate PAGE_SIZE 7

/-- Witness for C4: writing a page of 7s as page 0 of a fresh empty file
and reading it back, directly and after a close/reopen cycle. -/
theorem C4_witness :
    (fhC4.isOpen = true ∧ (0 : Int) ≤ 0 ∧ pageC4.length = PAGE_SIZE ∧
      ({ content := [], faults := [] } : SMState).faults = []) ∧
    ((writeBlock 0 fhC4 pageC4 { content := [], faults := [] }).1 = RC.RC_OK ∧
      (readBlock 0 (writeBlock 0 fhC4 pageC4 { content := [], faults := [] }).2.1 []
        (writeBlock 0 fhC4 pageC4 { content := [], faults := [] }).2.2).1 = RC.RC_OK ∧
      (readBlock 0 (writeBlock 0 fhC4 pageC4 { content := [], faults := [] }).2.1 []
        (writeBlock 0 fhC4 pageC4 { content := [], faults := [] }).2.2).2.2.2 = pageC4 ∧
      (closePageFile (writeBlock 0 fhC4 pageC4 { content := [], faults := [] }).2.1).1 =
        RC.RC_OK ∧
      (readBlock 0
        (openPageFile (writeBlock 0 fhC4 pageC4 { content := [], faults := [] }).2.2) []
        (writeBlock 0 fhC4 pageC4 { content := [], faults := [] }).2.2).1 = RC.RC_OK ∧
      (readBlock 0
        (openPageFile (writeBlock 0 fhC4 pageC4 { content := [], faults := [] }).2.2) []
        (writeBlock 0 fhC4 pageC4 { content := [], faults := [] }).2.2).2.2.2 = pageC4) :=
  ⟨⟨rfl, by decide, by simp [pageC4], rfl⟩,
    C4_write_read_roundtrip fhC4 { content := [], faults := [] } 0 pageC4 [] []
      rfl (by decide) (by simp [pageC4]) rfl⟩

/-- A successful `flushFrameIfDirty` on an occupied dirty unpinned frame
clears exactly its dirty flag and counts one write. -/
lemma flushFrameIfDirty_flushCond_ok (pm : PoolMgmt) (st : SMState) (i : Nat)
    (fr : Frame) (hget : pm.frames[i]? = some fr) (hc : flushCond fr) :
    ∀ (rc : RC) (pm' : PoolMgmt) (st' : SMState),
      flushFrameIfDirty pm st i = (rc, pm', st') → rc = RC.RC_OK →
      pm'.frames = pm.frames.set i { fr with dirty := false } ∧
      pm'.numWriteIOCount = pm.numWriteIOCount + 1 ∧
      pm'.tick = pm.tick ∧ pm'.numReadIOCount = pm.numReadIOCount := by
  intro rc pm' st' heq hrc
  rw [flushCond] at hc
  obtain ⟨h1, h2, _⟩ := hc
  rw [flushFrameIfDirty] at heq
  simp only [hget, if_neg h1, if_neg (show ¬¬fr.dirty = true by simp [h2])] at heq
  rcases hwb : writeBlock fr.pageNum pm.fh fr.data st with ⟨rcw, fh1, st1⟩
  simp only [hwb] at heq
  by_cases h4 : rcw = RC.RC_OK
  · subst h4
    rw [if_neg (by simp)] at heq
    cases heq
    exact ⟨rfl, rfl, rfl, rfl⟩
  · rw [if_pos h4] at heq
    cases heq
    exact absurd hrc h4

lemma drop_succ_set {α : Type} (l : List α) (i : Nat) (a : α) :
    (l.set i a).drop (i + 1) = l.drop (i + 1) := by
  rw [List.drop_set, if_pos (by omega)]

/-- Shifting the loop bound past an already-processed slot does not
change the per-frame effect of the remaining flush loop. -/
lemma if_flush_shift (i j : Nat) (fr : Frame) (hji : j ≠ i) :
    (if i + 1 ≤ j ∧ flushCond fr then { fr with dirty := false } else fr) =
    (if i ≤ j ∧ flushCond fr then { fr with dirty := false } else fr) := by
  by_cases hcf : flushCond fr
  · by_cases hij2 : i ≤ j
    · rw [if_pos ⟨by omega, hcf⟩, if_pos ⟨hij2, hcf⟩]
    · rw [if_neg (by rintro ⟨h, _⟩; omega), if_neg (by rintro ⟨h, _⟩; exact hij2 h)]
  · rw [if_neg (by rintro ⟨_, h⟩; exact hcf h), if_neg (by rintro ⟨_, h⟩; exact hcf h)]

/-- The invariant of `forceFlushPool`'s loop from slot `i` on: on overall
success every slot from `i` on satisfying the flush condition has exactly
its dirty flag cleared, every other slot is untouched, the tick and read
counter are unchanged, and the write counter grows by the number of
flushed slots. -/
lemma forceFlushAux_spec :
    ∀ (fuel i : Nat) (pm : PoolMgmt) (st : SMState),
      pm.frames.length ≤ i + fuel →
      ∀ (rc : RC) (pm' : PoolMgmt) (st' : SMState),
        forceFlushAux fuel i pm st = (rc, pm', st') → rc = RC.RC_OK →
        pm'.frames.length = pm.frames.length ∧
        pm'.tick = pm.tick ∧
        pm'.numReadIOCount = pm.numReadIOCount ∧
        (∀ (j : Nat) (fr : Frame), pm.frames[j]? = some fr →
          pm'.frames[j]? =
            some (if i ≤ j ∧ flushCond fr then { fr with dirty := false } else fr)) ∧
        pm'.numWriteIOCount = pm.numWriteIOCount +
          List.countP (fun fr => decide (flushCond fr)) (pm.frames.drop i) := by
  intro fuel
  induction fuel with
  | zero =>
    intro i pm st hlen rc pm' st' heq hrc
    rw [forceFlushAux] at heq
    cases heq
    refine ⟨rfl, rfl, rfl, ?_, ?_⟩
    · intro j fr hget
      have hj : j < pm.frames.length := (List.getElem?_eq_some_iff.mp hget).1
      rw [if_neg (by rintro ⟨h, _⟩; omega)]
      exact hget
    · rw [List.drop_eq_nil_of_le (by omega)]
      simp
  | succ fuel ih =>
    intro i pm st hlen rc pm' st' heq hrc
    rw [forceFlushAux] at heq
    cases hget : pm.frames[i]? with
    | none =>
      have hi : pm.frames.length ≤ i := List.getElem?_eq_none_iff.mp hget
      simp only [hget] at heq
      cases heq
      refine ⟨rfl, rfl, rfl, ?_, ?_⟩
      · intro j fr hget'
        have hj : j < pm.frames.length := (List.getElem?_eq_some_iff.mp hget').1
        rw [if_neg (by rintro ⟨h, _⟩; omega)]
        exact hget'
      · rw [List.drop_eq_nil_of_le hi]
        simp
    | some fr =>
      simp only [hget] at heq
      obtain ⟨hi, hEl⟩ := List.getElem?_eq_some_iff.mp hget
      have hdropi : pm.frames.drop i = fr :: pm.frames.drop (i + 1) := by
        rw [List.drop_eq_getElem_cons hi, hEl]
      by_cases hc : flushCond fr
      · rw [if_pos hc] at heq
        rcases hfl : flushFrameIfDirty pm st i with ⟨rcf, pmf, stf⟩
        simp only [hfl] at heq
        by_cases hrcf : rcf = RC.RC_OK
        · subst hrcf
          rw [if_neg (by simp)] at heq
          obtain ⟨hfr, hw, ht, hr⟩ :=
            flushFrameIfDirty_flushCond_ok pm st i fr hget hc RC.RC_OK pmf stf hfl rfl
          have hlenf : pmf.frames.length = pm.frames.length := by
            rw [hfr]
            exact List.length_set pm.frames i _
          obtain ⟨l1, t1, r1, all1, w1⟩ :=
            ih (i + 1) pmf stf (by omega) rc pm' st' heq hrc
          refine ⟨l1.trans hlenf, t1.trans ht, r1.trans hr, ?_, ?_⟩
          · intro j fr' hget'
            by_cases hji : j = i
            · subst hji
              rw [hget] at hget'
              cases hget'
              have hgetf : pmf.frames[j]? = some { fr with dirty := false } := by
                rw [hfr]
                exact List.getElem?_set_self hi
              rw [all1 j _ hgetf, if_neg (by rintro ⟨h, _⟩; omega),
                if_pos ⟨le_refl j, hc⟩]
            · have hgetf : pmf.frames[j]? = some fr' := by
                rw [hfr, List.getElem?_set_ne (fun h => hji h.symm)]
                exact hget'
              rw [all1 j fr' hgetf, if_flush_shift i j fr' hji]
          · have hdropf : pmf.frames.drop (i + 1) = pm.frames.drop (i + 1) := by
              rw [hfr]
              exact drop_succ_set _ _ _
            rw [w1, hdropf, hw, hdropi, List.countP_cons]
            simp only [hc, decide_True, if_true]
            omega
        · rw [if_pos hrcf] at heq
          cases heq
          exact absurd hrc hrcf
      · rw [if_neg hc] at heq
        obtain ⟨l1, t1, r1, all1, w1⟩ := ih (i + 1) pm st (by omega) rc pm' st' heq hrc
        refine ⟨l1, t1, r1, ?_, ?_⟩
        · intro j fr' hget'
          by_cases hji : j = i
          · subst hji
            rw [hget] at hget'
            cases hget'
            rw [all1 j _ hget, if_neg (by rintro ⟨h, _⟩; omega),
              if_neg (by rintro ⟨_, h⟩; exact hc h)]
          · rw [all1 j fr' hget', if_flush_shift i j fr' hji]
        · rw [w1, hdropi, List.countP_cons]
          simp only [hc, decide_False, Bool.false_eq_true, if_false]
          omega

/-- C10: a successful `forceFlushPool` leaves every frame's resident
page number, pin count, and sequence numbers unchanged and the read-I/O
counter untouched; it clears the dirty flag exactly on the occupied
dirty frames with pin count 0 (all other frames are returned verbatim),
and increases the write-I/O counter by exactly the number of frames it
flushed. -/
theorem C10_forceFlushPool_effect (pm : PoolMgmt) (st : SMState)
    (hrc : (forceFlushPool pm st).1 = RC.RC_OK) :
    (forceFlushPool pm st).2.1.frames.length = pm.frames.length ∧
    (forceFlushPool pm st).2.1.numReadIOCount = pm.numReadIOCount ∧
    (∀ (j : Nat) (fr : Frame), pm.frames[j]? = some fr →
      (forceFlushPool pm st).2.1.frames[j]? =
        some (if flushCond fr then { fr with dirty := false } else fr)) ∧
    (forceFlushPool pm st).2.1.numWriteIOCount = pm.numWriteIOCount +
      List.countP (fun fr => decide (flushCond fr)) pm.frames := by
  rcases hres : forceFlushPool pm st with ⟨rc, pm', st'⟩
  rw [hres] at hrc
  have hspec := forceFlushAux_spec pm.frames.length 0 pm st (by omega) rc pm' st'
    (by rw [← forceFlushPool]; exact hres) hrc
  obtain ⟨l1, _, r1, all1, w1⟩ := hspec
  refine ⟨l1, r1, ?_, ?_⟩
  · intro j fr hget
    have := all1 j fr hget
    rw [this]
    by_cases hcf : flushCond fr
    · rw [if_pos ⟨Nat.zero_le j, hcf⟩, if_pos hcf]
    · rw [if_neg (by rintro ⟨_, h⟩; exact hcf h), if_neg hcf]
  · rw [w1, List.drop_zero]

/-- A pool for the C10 witness: frame 0 occupied, dirty and unpinned
(flushed), frame 1 occupied, dirty but pinned (skipped). -/
def poolC10 : PoolMgmt :=
  { fh := { totalNumPages := 2, curPagePos := 0, isOpen := true }
    frames :=
      [ { pageNum := 0, data := [4], dirty := true, fixCount := 0, seq := 1, lru := 1 }
      , { pageNum := 1, data := [6], dirty := true, fixCount := 1, seq := 2, lru := 2 } ]
    numReadIOCount := 0
    numWriteIOCount := 0
    tick := 2 }

/-- Witness for C10: flushing `poolC10` over a fault-free store succeeds
and the theorem applies. -/
theorem C10_witness :
    (forceFlushPool poolC10 { content := [9], faults := [] }).1 = RC.RC_OK ∧
    ((forceFlushPool poolC10 { content := [9], faults := [] }).2.1.frames.length =
        poolC10.frames.length ∧
      (forceFlushPool poolC10 { content := [9], faults := [] }).2.1.numReadIOCount =
        poolC10.numReadIOCount ∧
      (∀ (j : Nat) (fr : Frame), poolC10.frames[j]? = some fr →
        (forceFlushPool poolC10 { content := [9], faults := [] }).2.1.frames[j]? =
          some (if flushCond fr then { fr with dirty := false } else fr)) ∧
      (forceFlushPool poolC10 { content := [9], faults := [] }).2.1.numWriteIOCount =
        poolC10.numWriteIOCount +
          List.countP (fun fr => decide (flushCond fr)) poolC10.frames) :=
  ⟨by decide, C10_forceFlushPool_effect poolC10 { content := [9], faults := [] } (by decide)⟩

/-- The §3 frame invariant: a page number, if not the empty sentinel,
appears in at most one frame across the pool. -/
def pageUnique (frames : List Frame) : Prop :=
  ∀ (i j : Nat) (fri frj : Frame), frames[i]? = some fri → frames[j]? = some frj →
    i ≠ j → fri.pageNum ≠ NO_PAGE → fri.pageNum ≠ frj.pageNum

lemma pageNum_map_getElem? {l l' : List Frame}
    (h : l'.map Frame.pageNum = l.map Frame.pageNum) (n : Nat) (fr : Frame)
    (hget : l'[n]? = some fr) :
    ∃ fr0 : Frame, l[n]? = some fr0 ∧ fr0.pageNum = fr.pageNum := by
  have h2 : (l'.map Frame.pageNum)[n]? = (l.map Frame.pageNum)[n]? := by rw [h]
  rw [List.getElem?_map, List.getElem?_map, hget] at h2
  cases hg : l[n]? with
  | none =>
    rw [hg] at h2
    simp at h2
  | some fr0 =>
    rw [hg] at h2
    simp at h2
    exact ⟨fr0, rfl, h2.symm⟩

lemma pageUnique_of_map_eq {l l' : List Frame}
    (h : l'.map Frame.pageNum = l.map Frame.pageNum) (hU : pageUnique l) :
    pageUnique l' := by
  intro i j fri frj hgi hgj hij hne
  obtain ⟨fri0, hgi0, hpi⟩ := pageNum_map_getElem? h i fri hgi
  obtain ⟨frj0, hgj0, hpj⟩ := pageNum_map_getElem? h j frj hgj
  rw [← hpi, ← hpj]
  exact hU i j fri0 frj0 hgi0 hgj0 hij (by rw [hpi]; exact hne)

/-- Loading a page that is resident nowhere into one slot preserves the
uniqueness invariant. -/
lemma pageUnique_set_fresh (frames frs : List Frame) (fr1 : Frame) (idx : Nat)
    (p : Int) (hmap : frs.map Frame.pageNum = frames.map Frame.pageNum)
    (hU : pageUnique frames) (hfresh : ∀ fr ∈ frames, fr.pageNum ≠ p)
    (hp : fr1.pageNum = p) :
    pageUnique (frs.set idx fr1) := by
  by_cases hidx : idx < frs.length
  · intro i j fri frj hgi hgj hij hne
    by_cases hii : i = idx
    · subst hii
      rw [List.getElem?_set_self hidx] at hgi
      cases hgi
      rw [List.getElem?_set_ne hij] at hgj
      obtain ⟨frj0, hgj0, hpj⟩ := pageNum_map_getElem? hmap j frj hgj
      have hfr : frj0.pageNum ≠ p := hfresh frj0 (List.getElem?_mem hgj0)
      rw [hp, ← hpj]
      exact Ne.symm hfr
    · rw [List.getElem?_set_ne (fun h => hii h.symm)] at hgi
      by_cases hjj : j = idx
      · subst hjj
        rw [List.getElem?_set_self hidx] at hgj
        cases hgj
        obtain ⟨fri0, hgi0, hpi⟩ := pageNum_map_getElem? hmap i fri hgi
        have hfr : fri0.pageNum ≠ p := hfresh fri0 (List.getElem?_mem hgi0)
        rw [← hpi, hp]
        exact hfr
      · rw [List.getElem?_set_ne (fun h => hjj h.symm)] at hgj
        exact pageUnique_of_map_eq hmap hU i j fri frj hgi hgj hij hne
  · rw [List.set_eq_of_length_le (by omega)]
    exact pageUnique_of_map_eq hmap hU

lemma unpinPage_pageNum_map (pm : PoolMgmt) (p : Int) :
    (unpinPage pm p).2.frames.map Frame.pageNum = pm.frames.map Frame.pageNum := by
  rw [unpinPage]
  cases hfind : findFrameIndexByPage pm p with
  | none => rfl
  | some idx =>
    simp only [hfind]
    cases hget : pm.frames[idx]? with
    | none => rfl
    | some fr =>
      simp only [hget]
      by_cases hfix : 0 < fr.fixCount
      · rw [if_pos hfix]
        exact map_set_same Frame.pageNum pm.frames idx fr _ hget rfl
      · rw [if_neg hfix]

lemma markDirty_pageNum_map (pm : PoolMgmt) (p : Int) :
    (markDirty pm p).2.frames.map Frame.pageNum = pm.frames.map Frame.pageNum := by
  rw [markDirty]
  cases hfind : findFrameIndexByPage pm p with
  | none => rfl
  | some idx =>
    simp only [hfind]
    cases hget : pm.frames[idx]? with
    | none => rfl
    | some fr =>
      simp only [hget]
      exact map_set_same Frame.pageNum pm.frames idx fr _ hget rfl

lemma forcePage_pageNum_map (pm : PoolMgmt) (st : SMState) (p : Int) :
    (forcePage pm st p).2.1.frames.map Frame.pageNum = pm.frames.map Frame.pageNum := by
  rw [forcePage]
  cases hfind : findFrameIndexByPage pm p with
  | none => rfl
  | some idx =>
    simp only [hfind]
    rcases hfl : flushFrameIfDirty pm st idx with ⟨rcf, pmf, stf⟩
    have hmap := (flushFrameIfDirty_spec pm st idx rcf pmf stf hfl).2.2.1
    exact hmap

lemma forceFlushAux_pageNum_map :
    ∀ (fuel i : Nat) (pm : PoolMgmt) (st : SMState),
      (forceFlushAux fuel i pm st).2.1.frames.map Frame.pageNum =
        pm.frames.map Frame.pageNum := by
  intro fuel
  induction fuel with
  | zero => intro i pm st; rw [forceFlushAux]
  | succ fuel ih =>
    intro i pm st
    rw [forceFlushAux]
    cases hget : pm.frames[i]? with
    | none => rfl
    | some fr =>
      simp only [hget]
      by_cases hc : flushCond fr
      · rw [if_pos hc]
        rcases hfl : flushFrameIfDirty pm st i with ⟨rcf, pmf, stf⟩
        simp only [hfl]
        have hmapf := (flushFrameIfDirty_spec pm st i rcf pmf stf hfl).2.2.1
        by_cases hrcf : rcf = RC.RC_OK
        · subst hrcf
          rw [if_neg (by simp)]
          rw [ih (i + 1) pmf stf, hmapf]
        · rw [if_pos hrcf]
          exact hmapf
      · rw [if_neg hc]
        exact ih (i + 1) pm st

/-- `pinPage` preserves the uniqueness invariant: a hit only changes pin
count and touch time, and a miss loads a page resident nowhere else. -/
lemma pinPage_pageUnique (strat : ReplacementStrategy) (pm : PoolMgmt)
    (st : SMState) (p : Int) (hU : pageUnique pm.frames) :
    pageUnique (pinPage strat pm st p).2.1.frames := by
  rw [pinPage]
  by_cases hneg : p < 0
  · rw [if_pos hneg]
    exact hU
  · rw [if_neg hneg]
    cases hfind : findFrameIndexByPage pm p with
    | some idx =>
      simp only [hfind]
      cases hget : pm.frames[idx]? with
      | none =>
        simp only [hget]
        exact hU
      | some fr =>
        simp only [hget]
        apply pageUnique_of_map_eq ?_ hU
        rw [touchForLRU]
        have hidx : idx < pm.frames.length := (List.getElem?_eq_some_iff.mp hget).1
        simp only [List.getElem?_set_self hidx, List.set_set]
        exact map_set_same Frame.pageNum pm.frames idx fr _ hget rfl
    | none =>
      simp only [hfind]
      cases hsel : (match findEmptyFrameIndex pm with
                    | some i => some i
                    | none => pickVictim pm strat) with
      | none =>
        simp only [hsel]
        exact hU
      | some idx =>
        simp only [hsel]
        rcases hev : evictIfNeededAndLoad pm st idx p with ⟨rc, pm1, st1⟩
        simp only [hev]
        have hspec := evictIfNeededAndLoad_spec pm st idx p rc pm1 st1 hev
        by_cases hrc : rc = RC.RC_OK
        · subst hrc
          rw [if_neg (by simp)]
          have hU1 : pageUnique pm1.frames := by
            rcases hspec.2 rfl with hmap | ⟨frs, fr1, hmap, hset, hp1⟩
            · exact pageUnique_of_map_eq hmap hU
            · rw [hset]
              exact pageUnique_set_fresh pm.frames frs fr1 idx p hmap hU
                (findLoop_none p pm.frames 0 hfind) hp1
          cases hget1 : pm1.frames[idx]? with
          | none =>
            simp only [hget1]
            exact hU1
          | some fr =>
            simp only [hget1]
            apply pageUnique_of_map_eq ?_ hU1
            rw [touchForLRU]
            have hidx1 : idx < pm1.frames.length :=
              (List.getElem?_eq_some_iff.mp hget1).1
            simp only [List.getElem?_set_self hidx1, List.set_set]
            exact map_set_same Frame.pageNum pm1.frames idx fr _ hget1 rfl
        · rw [if_pos hrc]
          exact pageUnique_of_map_eq (hspec.1 hrc) hU

/-- The pool states reachable from a successful initialization by any
sequence of pin, unpin, markDirty, forcePage and forceFlushPool calls
under one fixed strategy; the environment may also install a new fault
oracle between operations. -/
inductive Reachable (strat : ReplacementStrategy) : PoolMgmt → SMState → Prop where
  | init (numPages : Int) (st0 st1 : SMState) (pm : PoolMgmt) :
      initBufferPool numPages st0 = (RC.RC_OK, some pm, st1) →
      Reachable strat pm st1
  | pin (pm : PoolMgmt) (st : SMState) (p : Int) (rc : RC) (pm' : PoolMgmt)
      (st' : SMState) : Reachable strat pm st →
      pinPage strat pm st p = (rc, pm', st') → Reachable strat pm' st'
  | unpin (pm : PoolMgmt) (st : SMState) (p : Int) (rc : RC) (pm' : PoolMgmt) :
      Reachable strat pm st → unpinPage pm p = (rc, pm') → Reachable strat pm' st
  | mark (pm : PoolMgmt) (st : SMState) (p : Int) (rc : RC) (pm' : PoolMgmt) :
      Reachable strat pm st → markDirty pm p = (rc, pm') → Reachable strat pm' st
  | force (pm : PoolMgmt) (st : SMState) (p : Int) (rc : RC) (pm' : PoolMgmt)
      (st' : SMState) : Reachable strat pm st →
      forcePage pm st p = (rc, pm', st') → Reachable strat pm' st'
  | flushAll (pm : PoolMgmt) (st : SMState) (rc : RC) (pm' : PoolMgmt)
      (st' : SMState) : Reachable strat pm st →
      forceFlushPool pm st = (rc, pm', st') → Reachable strat pm' st'
  | refault (pm : PoolMgmt) (st : SMState) (fs : List Bool) :
      Reachable strat pm st → Reachable strat pm { st with faults := fs }

/-- C5: in every pool state reachable from initialization by pin, unpin,
markDirty, forcePage and forceFlushPool, each page number other than the
empty sentinel is resident in at most one frame. -/
theorem C5_page_in_at_most_one_frame (strat : ReplacementStrategy)
    (pm : PoolMgmt) (st : SMState) (hreach : Reachable strat pm st) :
    pageUnique pm.frames := by
  induction hreach with
  | init n st0 st1 pm0 hinit =>
    rw [initBufferPool] at hinit
    by_cases hn : n ≤ 0
    · rw [if_pos hn] at hinit
      simp at hinit
    · rw [if_neg hn] at hinit
      cases hinit
      intro i j fri frj hgi hgj hij hne
      by_cases hi : i < n.toNat
      · rw [List.getElem?_replicate, if_pos hi] at hgi
        cases hgi
        exact absurd rfl hne
      · rw [List.getElem?_replicate, if_neg hi] at hgi
        cases hgi
  | pin pm st p rc pm' st' hr heq ih =>
    have h := pinPage_pageUnique strat pm st p ih
    rw [heq] at h
    exact h
  | unpin pm st p rc pm' hr heq ih =>
    have h := unpinPage_pageNum_map pm p
    rw [heq] at h
    exact pageUnique_of_map_eq h ih
  | mark pm st p rc pm' hr heq ih =>
    have h := markDirty_pageNum_map pm p
    rw [heq] at h
    exact pageUnique_of_map_eq h ih
  | force pm st p rc pm' st' hr heq ih =>
    have h := forcePage_pageNum_map pm st p
    rw [heq] at h
    exact pageUnique_of_map_eq h ih
  | flushAll pm st rc pm' st' hr heq ih =>
    have h := forceFlushAux_pageNum_map pm.frames.length 0 pm st
    rw [← forceFlushPool, heq] at h
    exact pageUnique_of_map_eq h ih
  | refault pm st fs hr ih => exact ih

/-- The store of the C5 witness. -/
def stC5 : SMState := { content := [], faults := [] }

/-- The pool produced by initializing with capacity 1 over `stC5`. -/
def poolC5 : PoolMgmt :=
  { fh := openPageFile stC5
    frames := List.replicate 1
      { pageNum := NO_PAGE, data := List.replicate PAGE_SIZE 0
        dirty := false, fixCount := 0, seq := 0, lru := 0 }
    numReadIOCount := 0
    numWriteIOCount := 0
    tick := 0 }

/-- Witness for C5: the freshly initialized one-frame pool is reachable
and satisfies the invariant. -/
theorem C5_witness :
    Reachable ReplacementStrategy.RS_FIFO poolC5 stC5 ∧ pageUnique poolC5.frames :=
  have hr : Reachable ReplacementStrategy.RS_FIFO poolC5 stC5 :=
    Reachable.init 1 stC5 stC5 poolC5 rfl
  ⟨hr, C5_page_in_at_most_one_frame ReplacementStrategy.RS_FIFO poolC5 stC5 hr⟩

end BufferManager
